import Mathlib

/-!
Verification development for the `discrete_log_server` repository.

The Rust sources (`src/algo/mod.rs`, `src/lib.rs`, `src/bin/server.rs`) are
shallowly embedded below.  Machine integers (`u64`, `usize`) are modelled as
`Nat`; arithmetic that can overflow in Rust is wrapped explicitly with
`w64` (release-build wrapping semantics, `x % 2^64`).  Code that can panic
(failed `assert!`, division by zero, out-of-fuel loops that the source would
spin in forever) is modelled with `Option`/`Except`: `none` means the Rust
code does not return a value.  `while` loops are written as fuel-indexed
structural recursions so that every definition is executable; the fuel is
always chosen at the call site so that exhaustion coincides with genuine
divergence of the source loop.
-/

namespace DiscreteLogServer

/-- Wrapping 64-bit arithmetic: the value of a `u64` expression in a release
build is its mathematical value reduced mod `2^64`. -/
def w64 (x : Nat) : Nat := x % 2 ^ 64

/-! ## `src/algo/mod.rs` : `utils` module -/

/-- Loop body of `utils::gcd`: `while r > 0 { a = b; b = r; r = a % b }`.
The fuel bounds the iteration count (the second argument strictly decreases,
so `b + 1` units of fuel always suffice; callers pass that).  The `b = 0`
branch is unreachable from `gcd` (the assert guarantees `b ≠ 0` and every
recursive call passes a nonzero remainder). -/
def gcdAux : Nat → Nat → Nat → Option Nat
  | 0, _, _ => none
  | fuel + 1, a, b =>
    if a % b = 0 then some b else gcdAux fuel b (a % b)

/-- `utils::gcd(a, b)`.  `assert!(a != 0 && b != 0)` is the `none` case. -/
def gcd (a b : Nat) : Option Nat :=
  if a ≠ 0 ∧ b ≠ 0 then gcdAux (b + 1) a b else none

/-- Loop of `utils::fast_power`:
`while e > 0 { if e % 2 == 1 { r *= g; r %= n; } g *= g; g %= n; e /= 2 }`.
`e` strictly decreases, so fuel `e + 1` suffices.  `% n` with `n = 0`
panics in Rust, hence the `n = 0` guard inside the loop. -/
def fastPowerAux : Nat → Nat → Nat → Nat → Nat → Option Nat
  | 0, _, _, _, _ => none
  | fuel + 1, r, g, e, n =>
    if e = 0 then some r
    else if n = 0 then none
    else
      let r' := if e % 2 = 1 then w64 (r * g) % n else r
      fastPowerAux fuel r' (w64 (g * g) % n) (e / 2) n

/-- `utils::fast_power(g, e, n)`. -/
def fastPower (g e n : Nat) : Option Nat :=
  fastPowerAux (e + 1) 1 g e n

/-- Loop of `utils::gcd_weights`.  The state carries the last two entries of
`p_vec` (`p2` = second to last, `p1` = last) and of `q_vec`; the vectors
themselves are only ever read at those two positions.  Fuel: the second
Euclid argument strictly decreases, so `b + 1` suffices. -/
def gcdWeightsAux : Nat → Nat → Nat → Nat → Nat → Nat → Nat → Option (Nat × Nat)
  | 0, _, _, _, _, _, _ => none
  | fuel + 1, a, b, p2, p1, q2, q1 =>
    if a % b = 0 then some (p2, q2)
    else
      let a' := b
      let b' := a % b
      let q := a' / b'
      gcdWeightsAux fuel a' b' p1 (w64 (w64 (p1 * q) + p2)) q1 (w64 (w64 (q1 * q) + q2))

/-- `utils::gcd_weights(a, b)`: `p_vec = [1, a/b]`, `q_vec = [0, 1]`, then the
loop; returns the second-to-last entries.  `b = 0` makes the initial
`a / b` panic in Rust. -/
def gcdWeights (a b : Nat) : Option (Nat × Nat) :=
  if b = 0 then none
  else gcdWeightsAux (b + 1) a b 1 (a / b) 0 1

/-- The `while m < t { m += m; }` loop in `utils::gcd_mul_inverse`.  With
wrapping arithmetic the loop need not terminate (`m` can wrap to `0` and
then stay there); fuel exhaustion models that divergence. -/
def doubleLoop : Nat → Nat → Nat → Option Nat
  | 0, _, _ => none
  | fuel + 1, m, t =>
    if m < t then doubleLoop fuel (w64 (m + m)) t else some m

/-- `utils::gcd_mul_inverse(m, v, d, s, t)` with release (wrapping) `u64`
arithmetic.  Each `assert_eq!((v * v_inv) % m, d)` is the corresponding
`if ... then some ... else none`.  For `m = 0` the source's `% m` panics;
every claim about this function assumes `m ≥ 1`. -/
def gcdMulInverse (m v d s t : Nat) : Option Nat :=
  let ms := w64 (m * s)
  let vt := w64 (v * t)
  let mt := w64 (m * t)
  let vs := w64 (v * s)
  if ms > vt ∧ ms - vt = d then
    match doubleLoop 128 m t with
    | none => none
    | some m' =>
      let vInv := (m' - t) % m'
      if w64 (v * vInv) % m' = d then some ((m' - t) % m') else none
  else if mt > vs ∧ mt - vs = d then
    match doubleLoop 128 m s with
    | none => none
    | some m' =>
      let vInv := (m' - s) % m'
      if w64 (v * vInv) % m' = d then some ((m' - s) % m') else none
  else if vt > ms ∧ w64 (t * v) - ms = d then
    let vInv := t % m
    if w64 (v * vInv) % m = d then some (t % m) else none
  else
    let vInv := s % m
    if w64 (v * vInv) % m = d then some (s % m) else none

/-- Guard for overflow-checked (debug-build) `u64` arithmetic: a debug build
panics as soon as an intermediate value leaves the `u64` range. -/
def chk (x : Nat) : Option Nat :=
  if x < 2 ^ 64 then some x else none

/-- The doubling loop under checked arithmetic: `m += m` panics on overflow. -/
def doubleLoopChecked : Nat → Nat → Nat → Option Nat
  | 0, _, _ => none
  | fuel + 1, m, t =>
    if m < t then
      match chk (m + m) with
      | none => none
      | some m' => doubleLoopChecked fuel m' t
    else some m

/-- `utils::gcd_mul_inverse` under overflow-checked (debug-build) semantics:
identical control flow, but every product and sum must stay below `2^64`
(a debug build panics at the first overflowing operation, which the
catch-all `none` models). -/
def gcdMulInverseChecked (m v d s t : Nat) : Option Nat :=
  match chk (m * s), chk (v * t), chk (m * t), chk (v * s) with
  | some ms, some vt, some mt, some vs =>
    if ms > vt ∧ ms - vt = d then
      match doubleLoopChecked 128 m t with
      | none => none
      | some m' =>
        match chk (v * ((m' - t) % m')) with
        | none => none
        | some a => if a % m' = d then some ((m' - t) % m') else none
    else if mt > vs ∧ mt - vs = d then
      match doubleLoopChecked 128 m s with
      | none => none
      | some m' =>
        match chk (v * ((m' - s) % m')) with
        | none => none
        | some a => if a % m' = d then some ((m' - s) % m') else none
    else if vt > ms ∧ vt - ms = d then
      match chk (v * (t % m)) with
      | none => none
      | some a => if a % m = d then some (t % m) else none
    else
      match chk (v * (s % m)) with
      | none => none
      | some a => if a % m = d then some (s % m) else none
  | _, _, _, _ => none

/-- The `while q % 2 == 0 { q /= 2; k += 1 }` loop of `utils::miller_rabin`.
For `q = 0` the source loops forever; fuel exhaustion models that. -/
def evenSplitAux : Nat → Nat → Nat → Option (Nat × Nat)
  | 0, _, _ => none
  | fuel + 1, q, k =>
    if q % 2 = 0 then evenSplitAux fuel (q / 2) (k + 1) else some (q, k)

/-- Decomposition `m = 2^k * q` with `q` odd, as computed by `miller_rabin`. -/
def evenSplit (m : Nat) : Option (Nat × Nat) :=
  evenSplitAux (m + 1) m 0

/-- The `for i in 0..k { if a % n == n - 1 { return false } a *= a; a %= n }`
loop of `utils::miller_rabin`; returns `true` when the rounds are exhausted.
(The loop is only reached with odd `n ≥ 3`, so `% n` cannot panic.) -/
def mrLoop (n : Nat) : Nat → Nat → Option Bool
  | _, 0 => some true
  | a, k + 1 =>
    if a % n = n - 1 then some false
    else mrLoop n (w64 (a * a) % n) k

/-- `utils::miller_rabin(n, a)`. -/
def millerRabin (n a : Nat) : Option Bool :=
  match gcd a n with
  | none => none
  | some d =>
    if n % 2 = 0 ∨ (1 < d ∧ d < n) then some true
    else
      match evenSplit (n - 1) with
      | none => none
      | some (q, k) =>
        match fastPower a q n with
        | none => none
        | some a1 =>
          if a1 % n = 1 then some false
          else mrLoop n a1 k

/-! ## `src/algo/mod.rs` : `PollardsLog` -/

/-- The `PollardsLog` state (`p`, `g`, `h` public, walk state private). -/
structure PollardsLog where
  p : Nat
  g : Nat
  h : Nat
  i : Nat
  xi : Nat
  yi : Nat
  ai : Nat
  bi : Nat
  gi : Nat
  di : Nat
  finished : Bool
  deriving DecidableEq

/-- `PollardsLog::new(p, g, h)`. -/
def PollardsLog.new (p g h : Nat) : PollardsLog :=
  { p := p, g := g, h := h, i := 0, xi := 1, yi := 1,
    ai := 0, bi := 0, gi := 0, di := 0, finished := false }

/-- `PollardsLog::mix(x, a, b)`: the three-interval pseudo-random walk map.
The source's first guard `0 <= x && x < p/3` is just `x < p/3` on `u64`. -/
def PollardsLog.mix (s : PollardsLog) (x a b : Nat) : Nat × Nat × Nat :=
  if x < s.p / 3 then
    (w64 (s.g * x) % s.p, w64 (a + 1) % (s.p - 1), b)
  else if s.p / 3 ≤ x ∧ x < w64 (2 * s.p) / 3 then
    (w64 (x ^ 2) % s.p, w64 (2 * a) % (s.p - 1), w64 (2 * b) % (s.p - 1))
  else
    (w64 (s.h * x) % s.p, a, w64 (b + 1) % (s.p - 1))

/-- `<PollardsLog as Iterator>::next`: one step of the walk (state part).
When `finished` the source returns `None` and leaves the state untouched;
otherwise the tortoise advances once, the hare twice, `i` increments, and
`finished` is set when the two meet.  The emitted `PollardsLogItem` is a
copy of the new state's fields, so it is not modelled separately. -/
def PollardsLog.next (s : PollardsLog) : PollardsLog :=
  if s.finished then s
  else
    let (nxi, nai, nbi) := s.mix s.xi s.ai s.bi
    let (myi, mgi, mdi) := s.mix s.yi s.gi s.di
    let (nyi, ngi, ndi) := s.mix myi mgi mdi
    { s with
      xi := nxi, ai := nai, bi := nbi,
      yi := nyi, gi := ngi, di := ndi,
      i := w64 (s.i + 1),
      finished := nxi == nyi }

/-! ## `src/algo/mod.rs` : `PollardsRSAFact` -/

/-- The `PollardsRSAFact` state. -/
structure PollardsRSAFact where
  n : Nat
  i : Nat
  xi : Nat
  yi : Nat
  factor : Option Nat
  finished : Bool
  deriving DecidableEq

/-- `PollardsRSAFact::new(n)`.  The constructor asserts that
`(n - 1).checked_mul(n - 1)` does not overflow; for `n = 0` the
subtraction `n - 1` itself panics (debug) or wraps to `2^64 - 1` and then
fails the same assert (release), so `new` only returns for `1 ≤ n` with
`(n - 1) * (n - 1) < 2^64`. -/
def PollardsRSAFact.new (n : Nat) : Option PollardsRSAFact :=
  if 1 ≤ n ∧ (n - 1) * (n - 1) < 2 ^ 64 then
    some { n := n, i := 0, xi := 1, yi := 1, factor := none, finished := false }
  else none

/-- `PollardsRSAFact::mix(x) = ((x * x) % n + 1) % n`. -/
def PollardsRSAFact.mix (s : PollardsRSAFact) (x : Nat) : Nat :=
  (w64 (x * x) % s.n + 1) % s.n

/-- `<PollardsRSAFact as Iterator>::next` (state part).  `none` is a panic:
the only panic site is `gcd(self.xi.abs_diff(self.yi), self.n)`, whose
assert fires when the advanced tortoise and hare coincide (or `n = 0`).
A finished walk returns `None` in Rust without touching the state. -/
def PollardsRSAFact.next (s : PollardsRSAFact) : Option PollardsRSAFact :=
  if s.finished then some s
  else
    let i' := w64 (s.i + 1)
    let x' := s.mix s.xi
    let y' := s.mix (s.mix s.yi)
    match gcd (max x' y' - min x' y') s.n with
    | none => none
    | some g =>
      if g ≠ 1 ∧ s.n % g = 0 then
        some { s with i := i', xi := x', yi := y', factor := some g, finished := true }
      else
        some { s with i := i', xi := x', yi := y' }

/-- `PollardsRSAFact::factor()` = `self.factor.take()`: returns the stored
factor and removes it from the state.  (Named `factorTake` because the
field projection already uses the Rust name `factor`.) -/
def PollardsRSAFact.factorTake (s : PollardsRSAFact) : Option Nat × PollardsRSAFact :=
  (s.factor, { s with factor := none })

/-- `PollardsRSAFact::new(n)` followed by `k` calls of `next`. -/
def runFact (n k : Nat) : Option PollardsRSAFact :=
  match k with
  | 0 => PollardsRSAFact.new n
  | k + 1 => (runFact n k).bind PollardsRSAFact.next

/-! ## `src/bin/server.rs` : the broker (`main_broker`)

Only the data relevant to error handling is modelled: the client registry is
the list of registered peer ids (the queue senders carried by the `HashMap`
are irrelevant to which branch is taken), and `Event` carries the numeric
payloads of `src/lib.rs::Event` (sockets and cancellation tokens omitted).
Channel sends, task spawning and logging are effect-free in the model. -/

/-- The variants of `server.rs::ServerError` (payloads omitted). -/
inductive ServerError where
  | connection
  | channelSend
  | channelReceive
  | illegalFrame
  | illegalResponse
  | illegalState
  | read
  | task
  | write
  deriving DecidableEq

/-- The variants of `lib.rs::Event`, data fields only. -/
inductive Event where
  | newClient (peerId : Nat)
  | log (peerId g h p : Nat)
  | rsa (peerId n : Nat)
  | prime (peerId p : Nat)
  | quit (peerId : Nat)
  deriving DecidableEq

/-- One turn of the broker's event `match` (`server.rs`, `main_broker`):
`NewClient` inserts the peer into the registry; `Prime`, `Log` and `RSA`
look the peer up with `clients.get_mut(&peer_id).ok_or(IllegalState(..))?`;
`Quit` only logs.  An `Except.error` is a `return Err(..)` from
`main_broker`. -/
def brokerHandleEvent (clients : List Nat) : Event → Except ServerError (List Nat)
  | .newClient pid => .ok (insert pid clients)
  | .prime pid _ =>
    if pid ∈ clients then .ok clients else .error .illegalState
  | .log pid _ _ _ =>
    if pid ∈ clients then .ok clients else .error .illegalState
  | .rsa pid _ =>
    if pid ∈ clients then .ok clients else .error .illegalState
  | .quit _ => .ok clients

/-- The broker's event loop over a finite event sequence; an error aborts
the whole loop (the `?` operator makes it fatal to the broker task). -/
def brokerRun (clients : List Nat) : List Event → Except ServerError (List Nat)
  | [] => .ok clients
  | e :: es =>
    match brokerHandleEvent clients e with
    | .error err => .error err
    | .ok cs => brokerRun cs es

/-! ## Correctness of the embedded `gcd` -/

theorem gcdAux_eq_gcd (fuel : Nat) : ∀ a b : Nat, 0 < b → b < fuel →
    gcdAux fuel a b = some (Nat.gcd a b) := by
  induction fuel with
  | zero => intro a b _ h; omega
  | succ fuel ih =>
    intro a b hb hfuel
    rw [gcdAux]
    by_cases h : a % b = 0
    · rw [if_pos h, Nat.gcd_eq_right (Nat.dvd_of_mod_eq_zero h)]
    · rw [if_neg h,
        ih b (a % b) (Nat.pos_of_ne_zero h) (by have := Nat.mod_lt a hb; omega)]
      rw [Nat.gcd_comm b (a % b), ← Nat.gcd_rec, Nat.gcd_comm]

theorem gcd_eq_gcd (a b : Nat) (ha : a ≠ 0) (hb : b ≠ 0) :
    gcd a b = some (Nat.gcd a b) := by
  unfold gcd
  rw [if_pos ⟨ha, hb⟩]
  exact gcdAux_eq_gcd (b + 1) a b (Nat.pos_of_ne_zero hb) (Nat.lt_succ_self b)

theorem gcd_eq_some (a b d : Nat) (h : gcd a b = some d) :
    a ≠ 0 ∧ b ≠ 0 ∧ d = Nat.gcd a b := by
  by_cases ha : a ≠ 0 ∧ b ≠ 0
  · rcases ha with ⟨ha, hb⟩
    rw [gcd_eq_gcd a b ha hb] at h
    exact ⟨ha, hb, (Option.some_inj.mp h).symm⟩
  · exfalso; unfold gcd at h; rw [if_neg ha] at h; exact Option.noConfusion h

theorem gcd_of_zero (a b : Nat) (h : a = 0 ∨ b = 0) : gcd a b = none := by
  unfold gcd
  rcases h with h | h <;> simp [h]

/-! ## Invariants of the `PollardsRSAFact` walk -/

/-- Reachability invariant of the factoring walk: fixed modulus, in-range
tortoise and hare, `finished` tracks `factor`, and any stored factor is a
non-trivial divisor. -/
def FactInv (n : Nat) (s : PollardsRSAFact) : Prop :=
  s.n = n ∧ s.xi < n ∧ s.yi < n ∧
  s.finished = (s.factor).isSome ∧
  (∀ g, s.factor = some g → 1 < g ∧ g < n ∧ n % g = 0)

theorem mix_lt (s : PollardsRSAFact) (hn : 0 < s.n) (x : Nat) : s.mix x < s.n :=
  Nat.mod_lt _ hn

theorem factInv_new (n : Nat) (hn : 2 ≤ n) (s : PollardsRSAFact)
    (h : PollardsRSAFact.new n = some s) : FactInv n s := by
  unfold PollardsRSAFact.new at h
  by_cases hc : 1 ≤ n ∧ (n - 1) * (n - 1) < 2 ^ 64
  · rw [if_pos hc, Option.some_inj] at h
    refine h ▸ ⟨rfl, by show 1 < n; omega, by show 1 < n; omega, rfl, ?_⟩
    intro g hg; exact Option.noConfusion hg
  · rw [if_neg hc] at h; exact Option.noConfusion h

/-- Step equation for a finished walk: the iterator returns `None` and
leaves the state alone. -/
theorem next_of_finished (s : PollardsRSAFact) (hf : s.finished = true) :
    s.next = some s := by
  simp [PollardsRSAFact.next, hf]

/-- Step equation for an unfinished walk whose `gcd` call panics. -/
theorem next_of_gcd_none (s : PollardsRSAFact) (hf : s.finished = false)
    (hg : gcd (max (s.mix s.xi) (s.mix (s.mix s.yi)) -
               min (s.mix s.xi) (s.mix (s.mix s.yi))) s.n = none) :
    s.next = none := by
  simp [PollardsRSAFact.next, hf, hg]

/-- Step equation for an unfinished walk whose `gcd` call returns. -/
theorem next_of_gcd_some (s : PollardsRSAFact) (g : Nat) (hf : s.finished = false)
    (hg : gcd (max (s.mix s.xi) (s.mix (s.mix s.yi)) -
               min (s.mix s.xi) (s.mix (s.mix s.yi))) s.n = some g) :
    s.next =
      (if g ≠ 1 ∧ s.n % g = 0 then
         some { s with i := w64 (s.i + 1), xi := s.mix s.xi,
                       yi := s.mix (s.mix s.yi),
                       factor := some g, finished := true }
       else
         some { s with i := w64 (s.i + 1), xi := s.mix s.xi,
                       yi := s.mix (s.mix s.yi) }) := by
  simp [PollardsRSAFact.next, hf, hg]

theorem factInv_next (n : Nat) (hn : 2 ≤ n) (s s' : PollardsRSAFact)
    (hInv : FactInv n s) (h : s.next = some s') : FactInv n s' := by
  obtain ⟨hsn, hx, hy, hfin, hfac⟩ := hInv
  cases hf : s.finished with
  | true =>
    rw [next_of_finished s hf, Option.some_inj] at h
    exact h ▸ ⟨hsn, hx, hy, hfin, hfac⟩
  | false =>
    have hn0 : 0 < s.n := by omega
    have hx'n : s.mix s.xi < n := hsn ▸ mix_lt s hn0 s.xi
    have hy'n : s.mix (s.mix s.yi) < n := hsn ▸ mix_lt s hn0 (s.mix s.yi)
    cases hg : gcd (max (s.mix s.xi) (s.mix (s.mix s.yi)) -
                    min (s.mix s.xi) (s.mix (s.mix s.yi))) s.n with
    | none => rw [next_of_gcd_none s hf hg] at h; exact Option.noConfusion h
    | some g =>
      rw [next_of_gcd_some s g hf hg] at h
      obtain ⟨hdist, hnz, hgeq⟩ := gcd_eq_some _ _ _ hg
      by_cases hcond : g ≠ 1 ∧ s.n % g = 0
      · rw [if_pos hcond, Option.some_inj] at h
        subst h
        refine ⟨hsn, hx'n, hy'n, rfl, ?_⟩
        intro g' hg'
        cases Option.some_inj.mp hg'
        have hgpos : 0 < g := hgeq ▸ Nat.gcd_pos_of_pos_right _ hn0
        have hle : g ≤ max (s.mix s.xi) (s.mix (s.mix s.yi)) -
                       min (s.mix s.xi) (s.mix (s.mix s.yi)) :=
          hgeq ▸ Nat.gcd_le_left _ (Nat.pos_of_ne_zero hdist)
        have hg1 : g ≠ 1 := hcond.1
        refine ⟨by omega, by omega, hsn ▸ hcond.2⟩
      · rw [if_neg hcond, Option.some_inj] at h
        subst h
        exact ⟨hsn, hx'n, hy'n, hfin, hfac⟩

theorem factInv_run (n k : Nat) (hn : 2 ≤ n) (s : PollardsRSAFact)
    (h : runFact n k = some s) : FactInv n s := by
  induction k generalizing s with
  | zero => exact factInv_new n hn s h
  | succ k ih =>
    unfold runFact at h
    cases hprev : runFact n k with
    | none => rw [hprev] at h; exact Option.noConfusion h
    | some t =>
      rw [hprev] at h
      exact factInv_next n hn t s (ih t hprev) h

/-- A successful, unfinished step advances the tortoise by one `mix` and the
hare by two, whatever the gcd outcome was. -/
theorem next_xy (t s : PollardsRSAFact) (ht : t.finished = false)
    (h : t.next = some s) :
    s.xi = t.mix t.xi ∧ s.yi = t.mix (t.mix t.yi) ∧ s.n = t.n := by
  cases hg : gcd (max (t.mix t.xi) (t.mix (t.mix t.yi)) -
                  min (t.mix t.xi) (t.mix (t.mix t.yi))) t.n with
  | none => rw [next_of_gcd_none t ht hg] at h; exact Option.noConfusion h
  | some g =>
    rw [next_of_gcd_some t g ht hg] at h
    by_cases hcond : g ≠ 1 ∧ t.n % g = 0
    · rw [if_pos hcond, Option.some_inj] at h; subst h; exact ⟨rfl, rfl, rfl⟩
    · rw [if_neg hcond, Option.some_inj] at h; subst h; exact ⟨rfl, rfl, rfl⟩

/-- **C4.**  Factor correctness of the `FactorWalk`: over every panic-free run
of `PollardsRSAFact`, a stored factor is a non-trivial divisor of `n`
(`1 < g < n` and `n % g = 0`); `finished` equals `factor.isSome`, so the
factor is recorded on exactly the step that finishes the walk; a finished
walk never moves again (so the factor is set at most once); and an
unfinished step either records `g = gcd(|x' − y'|, n)` as a non-trivial
divisor and finishes, or records nothing and stays unfinished — hence the
factor is set on the first step whose gcd is a non-trivial divisor. -/
theorem c4_factor_correctness (n k : Nat) (hn : 2 ≤ n)
    (_hsq : (n - 1) ^ 2 < 2 ^ 64) (s : PollardsRSAFact)
    (hrun : runFact n k = some s) :
    (∀ g, s.factor = some g → 1 < g ∧ g < n ∧ n % g = 0)
    ∧ s.finished = (s.factor).isSome
    ∧ (s.finished = true → s.next = some s)
    ∧ (s.finished = false → ∀ s', s.next = some s' →
        ((s'.finished = true ∧ ∃ g, s'.factor = some g ∧
            g = Nat.gcd (max (s.mix s.xi) (s.mix (s.mix s.yi)) -
                         min (s.mix s.xi) (s.mix (s.mix s.yi))) n ∧
            1 < g ∧ g < n ∧ n % g = 0)
         ∨ (s'.finished = false ∧ s'.factor = none))) := by
  obtain ⟨hsn, hx, hy, hfin, hfac⟩ := factInv_run n k hn s hrun
  refine ⟨hfac, hfin, fun hf => next_of_finished s hf, ?_⟩
  intro hf s' h
  have hn0 : 0 < s.n := by omega
  cases hg : gcd (max (s.mix s.xi) (s.mix (s.mix s.yi)) -
                  min (s.mix s.xi) (s.mix (s.mix s.yi))) s.n with
  | none => rw [next_of_gcd_none s hf hg] at h; exact Option.noConfusion h
  | some g =>
    obtain ⟨hdist, hnz, hgeq⟩ := gcd_eq_some _ _ _ hg
    rw [next_of_gcd_some s g hf hg] at h
    by_cases hcond : g ≠ 1 ∧ s.n % g = 0
    · rw [if_pos hcond, Option.some_inj] at h
      subst h
      left
      have hgpos : 0 < g := hgeq ▸ Nat.gcd_pos_of_pos_right _ hn0
      have hle : g ≤ max (s.mix s.xi) (s.mix (s.mix s.yi)) -
                     min (s.mix s.xi) (s.mix (s.mix s.yi)) :=
        hgeq ▸ Nat.gcd_le_left _ (Nat.pos_of_ne_zero hdist)
      have hx'n : s.mix s.xi < n := hsn ▸ mix_lt s hn0 s.xi
      have hy'n : s.mix (s.mix s.yi) < n := hsn ▸ mix_lt s hn0 (s.mix s.yi)
      have hg1 : g ≠ 1 := hcond.1
      exact ⟨rfl, g, rfl, by rw [hgeq, hsn], by omega, by omega, hsn ▸ hcond.2⟩
    · rw [if_neg hcond, Option.some_inj] at h
      subst h
      right
      refine ⟨hf, ?_⟩
      show s.factor = none
      rw [hf] at hfin
      exact Option.not_isSome_iff_eq_none.mp (by rw [← hfin]; simp)

/-- Witness for C4 at `n = 15`, where the first step already finds the
factor `3`. -/
theorem c4_factor_correctness_witness :
    (2 ≤ 15 ∧ (15 - 1) ^ 2 < 2 ^ 64
      ∧ runFact 15 1 = some ⟨15, 1, 2, 5, some 3, true⟩)
    ∧ (∀ g, (some 3 : Option Nat) = some g → 1 < g ∧ g < 15 ∧ 15 % g = 0) :=
  ⟨⟨by norm_num, by norm_num, by decide⟩,
    (c4_factor_correctness 15 1 (by norm_num) (by norm_num)
      ⟨15, 1, 2, 5, some 3, true⟩ (by decide)).1⟩

/-- The step map `f(v) = (v·v + 1) mod n` exactly as written in the spec's
FactorWalk description (§3); `PollardsRSAFact.mix` agrees with it on
in-range arguments when `(n-1)² < 2^64` (lemma `mix_eq_fSpec`). -/
def fSpec (n v : Nat) : Nat := (v * v + 1) % n

theorem fSpec_lt (n : Nat) (hn : 0 < n) (v : Nat) : fSpec n v < n :=
  Nat.mod_lt _ hn

theorem mix_eq_fSpec (s : PollardsRSAFact) (hn : 2 ≤ s.n)
    (hsq : (s.n - 1) * (s.n - 1) < 2 ^ 64) (x : Nat) (hx : x < s.n) :
    s.mix x = fSpec s.n x := by
  unfold PollardsRSAFact.mix fSpec w64
  have hxx : x * x < 2 ^ 64 :=
    lt_of_le_of_lt (Nat.mul_le_mul (by omega) (by omega)) hsq
  rw [Nat.mod_eq_of_lt hxx]
  conv_rhs => rw [Nat.add_mod]
  rw [Nat.mod_eq_of_lt (show (1 : Nat) < s.n by omega)]

/-- **C5.**  FactorWalk invariant: along any run of `k` panic-free `next`
calls none of which has set `finished`, the tortoise is `f^k(1)` and the
hare is `f^(2k)(1)`, for the spec's step map `f(v) = (v·v + 1) mod n`. -/
theorem c5_factorwalk_invariant (n k : Nat) (hn : 2 ≤ n)
    (hsq : (n - 1) ^ 2 < 2 ^ 64) (s : PollardsRSAFact)
    (hrun : runFact n k = some s) (hfin : s.finished = false) :
    s.xi = (fSpec n)^[k] 1 ∧ s.yi = (fSpec n)^[2 * k] 1 := by
  induction k generalizing s with
  | zero =>
    unfold runFact PollardsRSAFact.new at hrun
    by_cases hc : 1 ≤ n ∧ (n - 1) * (n - 1) < 2 ^ 64
    · rw [if_pos hc, Option.some_inj] at hrun
      subst hrun
      exact ⟨rfl, rfl⟩
    · rw [if_neg hc] at hrun; exact Option.noConfusion hrun
  | succ k ih =>
    unfold runFact at hrun
    cases hprev : runFact n k with
    | none => rw [hprev] at hrun; exact Option.noConfusion hrun
    | some t =>
      rw [hprev] at hrun
      have hstep : t.next = some s := hrun
      obtain ⟨hsn, hxb, hyb, hfint, _⟩ := factInv_run n k hn t hprev
      have ht : t.finished = false := by
        cases h' : t.finished
        · rfl
        · exfalso
          rw [next_of_finished t h', Option.some_inj] at hstep
          rw [← hstep, h'] at hfin
          exact Bool.noConfusion hfin
      obtain ⟨hx', hy', _⟩ := next_xy t s ht hstep
      obtain ⟨ihx, ihy⟩ := ih t hprev ht
      have hsq' : (t.n - 1) * (t.n - 1) < 2 ^ 64 := by
        rw [hsn]; calc (n-1) * (n-1) = (n-1)^2 := (sq (n-1)).symm
        _ < 2 ^ 64 := hsq
      have hn' : 2 ≤ t.n := by omega
      constructor
      · rw [hx', mix_eq_fSpec t hn' hsq' t.xi (by omega), hsn, ihx,
          ← Function.iterate_succ_apply' (fSpec n) k 1]
      · rw [hy', mix_eq_fSpec t hn' hsq' (t.mix t.yi)
              (mix_lt t (by omega) t.yi),
          mix_eq_fSpec t hn' hsq' t.yi (by omega), hsn, ihy,
          ← Function.iterate_succ_apply' (fSpec n) (2 * k) 1,
          ← Function.iterate_succ_apply' (fSpec n) (2 * k + 1) 1,
          show 2 * (k + 1) = 2 * k + 1 + 1 by ring]

/-- Witness for C5 at `n = 2201`, `k = 1` (one step, not yet finished). -/
theorem c5_factorwalk_invariant_witness :
    (2 ≤ 2201 ∧ (2201 - 1) ^ 2 < 2 ^ 64
      ∧ runFact 2201 1 = some ⟨2201, 1, 2, 5, none, false⟩)
    ∧ ((2 : Nat) = (fSpec 2201)^[1] 1 ∧ (5 : Nat) = (fSpec 2201)^[2 * 1] 1) :=
  ⟨⟨by norm_num, by norm_num, by decide⟩,
    c5_factorwalk_invariant 2201 1 (by norm_num) (by norm_num)
      ⟨2201, 1, 2, 5, none, false⟩ (by decide) rfl⟩

/-- **C9.**  Reading the factor is destructive: `factor()` is
`self.factor.take()`, so immediately after a read that returned `Some(g)`
a second read returns `None`. -/
theorem c9_factor_take_destructive (s : PollardsRSAFact) (g : Nat)
    (_h : (s.factorTake).1 = some g) :
    (((s.factorTake).2).factorTake).1 = none := rfl

/-- Witness for C9 on a finished walk state holding factor `3`. -/
theorem c9_factor_take_destructive_witness :
    ((⟨15, 1, 2, 5, some 3, true⟩ : PollardsRSAFact).factorTake).1 = some 3
    ∧ ((((⟨15, 1, 2, 5, some 3, true⟩ : PollardsRSAFact).factorTake).2).factorTake).1
        = none :=
  ⟨rfl, c9_factor_take_destructive ⟨15, 1, 2, 5, some 3, true⟩ 3 rfl⟩

/-- **C10.**  `gcd` asserts both arguments nonzero; consequently a FactorWalk
step on which the advanced tortoise equals the advanced hare calls
`gcd(0, n)` and panics instead of producing anything, and every step that
does return a state has `x ≠ y`. -/
theorem c10_gcd_zero_assert :
    (∀ a b : Nat, a = 0 ∨ b = 0 → gcd a b = none)
    ∧ (∀ s : PollardsRSAFact, s.finished = false →
        s.mix s.xi = s.mix (s.mix s.yi) → s.next = none)
    ∧ (∀ s s' : PollardsRSAFact, s.finished = false → s.next = some s' →
        s'.xi ≠ s'.yi) := by
  refine ⟨gcd_of_zero, ?_, ?_⟩
  · intro s hf heq
    have hdist0 : max (s.mix s.xi) (s.mix (s.mix s.yi)) -
                  min (s.mix s.xi) (s.mix (s.mix s.yi)) = 0 := by omega
    exact next_of_gcd_none s hf (by rw [hdist0]; exact gcd_of_zero _ _ (Or.inl rfl))
  · intro s s' hf h
    cases hg : gcd (max (s.mix s.xi) (s.mix (s.mix s.yi)) -
                    min (s.mix s.xi) (s.mix (s.mix s.yi))) s.n with
    | none => rw [next_of_gcd_none s hf hg] at h; exact Option.noConfusion h
    | some g =>
      obtain ⟨hdist, _, _⟩ := gcd_eq_some _ _ _ hg
      obtain ⟨hx', hy', _⟩ := next_xy s s' hf h
      rw [hx', hy']
      intro hcon
      exact hdist (by omega)

/-- Witness for C10: `gcd(0, 5)` panics; the state `(n=5, x=2, y=1)` has
`mix x = mix (mix y) = 0`, so its step panics; and the first step at
`n = 2201` returns a state with `x = 2 ≠ 5 = y`. -/
theorem c10_gcd_zero_assert_witness :
    gcd 0 5 = none
    ∧ (⟨5, 0, 2, 1, none, false⟩ : PollardsRSAFact).next = none
    ∧ (⟨2201, 1, 2, 5, none, false⟩ : PollardsRSAFact).xi ≠
        (⟨2201, 1, 2, 5, none, false⟩ : PollardsRSAFact).yi :=
  ⟨c10_gcd_zero_assert.1 0 5 (Or.inl rfl),
   c10_gcd_zero_assert.2.1 ⟨5, 0, 2, 1, none, false⟩ rfl (by decide),
   c10_gcd_zero_assert.2.2 ⟨2201, 0, 1, 1, none, false⟩
     ⟨2201, 1, 2, 5, none, false⟩ rfl (by decide)⟩

/-- **C8 (counterexample).**  A `Quit` event for a peer id absent from the
registry is *not* an error: the broker merely logs it and continues.  Here
the registry is empty and peer `0` unknown, yet the broker succeeds. -/
theorem c8_counterexample : brokerRun [] [Event.quit 0] = Except.ok [] := rfl

/-- **C8 (amended).**  For `Prime`, `Log` and `RSA` events whose peer id has
no registry entry the broker fails with an illegal-state error that aborts
the whole event loop; a `Quit` event for an unknown peer is only logged and
processing continues. -/
theorem c8_amended_unknown_peer (clients : List Nat)
    (pid a b c q nn : Nat) (rest : List Event) (hpid : pid ∉ clients) :
    brokerRun clients (Event.prime pid a :: rest) = .error .illegalState
    ∧ brokerRun clients (Event.log pid b c q :: rest) = .error .illegalState
    ∧ brokerRun clients (Event.rsa pid nn :: rest) = .error .illegalState
    ∧ brokerRun clients (Event.quit pid :: rest) = brokerRun clients rest := by
  refine ⟨?_, ?_, ?_, ?_⟩ <;> simp [brokerRun, brokerHandleEvent, hpid]

/-- Witness for the amended C8 with an empty registry and peer id `0`. -/
theorem c8_amended_unknown_peer_witness :
    brokerRun [] [Event.prime 0 7] = .error .illegalState
    ∧ brokerRun [] [Event.log 0 2 3 5] = .error .illegalState
    ∧ brokerRun [] [Event.rsa 0 15] = .error .illegalState
    ∧ brokerRun [] [Event.quit 0] = brokerRun [] [] :=
  c8_amended_unknown_peer [] 0 7 2 3 5 15 [] (by simp)

/-! ## The DLogWalk invariant (C1) -/

/-- Exponents can be reduced mod `p - 1` under any nonzero base of the prime
field: `G^(e % (p-1)) = G^e`. -/
theorem pow_mod_card_sub_one (p : Nat) [Fact (Nat.Prime p)] (G : ZMod p)
    (hG : G ≠ 0) (e : Nat) : G ^ (e % (p - 1)) = G ^ e := by
  conv_rhs => rw [← Nat.div_add_mod e (p - 1)]
  rw [pow_add, pow_mul, ZMod.pow_card_sub_one_eq_one hG, one_pow, one_mul]

/-- A unit of the prime field: `1 ≤ g < p` casts to a nonzero element. -/
theorem natCast_ne_zero_of_lt (p g : Nat) [Fact (Nat.Prime p)]
    (hg1 : 1 ≤ g) (hgp : g < p) : (g : ZMod p) ≠ 0 := by
  intro hcon
  rw [ZMod.natCast_zmod_eq_zero_iff_dvd] at hcon
  exact absurd (Nat.le_of_dvd (by omega) hcon) (by omega)

/-- Reachability invariant of the discrete-log walk: the parameters are
fixed, all walk components are reduced, and both triples satisfy the
congruences `x ≡ g^a·h^b` and `y ≡ g^c·h^d` (mod p). -/
def LogInv (p g h : Nat) (s : PollardsLog) : Prop :=
  s.p = p ∧ s.g = g ∧ s.h = h ∧
  s.xi < p ∧ s.yi < p ∧ s.ai < p - 1 ∧ s.bi < p - 1 ∧ s.gi < p - 1 ∧ s.di < p - 1 ∧
  ((s.xi : ZMod p) = (g : ZMod p) ^ s.ai * (h : ZMod p) ^ s.bi) ∧
  ((s.yi : ZMod p) = (g : ZMod p) ^ s.gi * (h : ZMod p) ^ s.di)

/-- `mix` preserves the walk congruence: if `x ≡ g^a·h^b (mod p)` with all
components reduced, then the mixed triple satisfies the same relation. -/
theorem mix_preserves (p gv hv : Nat) [Fact (Nat.Prime p)] (hp3 : 3 ≤ p)
    (hsq : (p - 1) ^ 2 < 2 ^ 64)
    (hg1 : 1 ≤ gv) (hgp : gv < p) (hh1 : 1 ≤ hv) (hhp : hv < p)
    (s : PollardsLog) (hsp : s.p = p) (hsg : s.g = gv) (hsh : s.h = hv)
    (x a b : Nat) (hx : x < p) (ha : a < p - 1) (hb : b < p - 1)
    (hcong : (x : ZMod p) = (gv : ZMod p) ^ a * (hv : ZMod p) ^ b) :
    (s.mix x a b).1 < p ∧ (s.mix x a b).2.1 < p - 1 ∧ (s.mix x a b).2.2 < p - 1 ∧
    ((s.mix x a b).1 : ZMod p) =
      (gv : ZMod p) ^ (s.mix x a b).2.1 * (hv : ZMod p) ^ (s.mix x a b).2.2 := by
  have hp1 : 0 < p - 1 := by omega
  have hp0 : 0 < p := by omega
  have hplt : p - 1 < 2 ^ 32 := by
    by_contra hcon
    have : (2 ^ 32) ^ 2 ≤ (p - 1) ^ 2 :=
      Nat.pow_le_pow_left (by omega) 2
    have : (2 : Nat) ^ 64 ≤ (p - 1) ^ 2 := by
      calc (2 : Nat) ^ 64 = (2 ^ 32) ^ 2 := by norm_num
      _ ≤ (p - 1) ^ 2 := this
    omega
  have hGne : (gv : ZMod p) ≠ 0 := natCast_ne_zero_of_lt p gv hg1 hgp
  have hHne : (hv : ZMod p) ≠ 0 := natCast_ne_zero_of_lt p hv hh1 hhp
  have wsmall : ∀ u v : Nat, u ≤ p - 1 → v ≤ p - 1 → w64 (u * v) = u * v := by
    intro u v hu hv'
    unfold w64
    exact Nat.mod_eq_of_lt (lt_of_le_of_lt
      (by calc u * v ≤ (p-1) * (p-1) := Nat.mul_le_mul hu hv'
          _ = (p-1) ^ 2 := (sq (p-1)).symm) hsq)
  unfold PollardsLog.mix
  rw [hsp, hsg, hsh]
  by_cases h1 : x < p / 3
  · rw [if_pos h1]
    refine ⟨Nat.mod_lt _ hp0, Nat.mod_lt _ hp1, hb, ?_⟩
    have hw1 : w64 (a + 1) = a + 1 := by
      unfold w64; exact Nat.mod_eq_of_lt (by omega)
    rw [wsmall gv x (by omega) (by omega), hw1, ZMod.natCast_mod,
      pow_mod_card_sub_one p _ hGne, Nat.cast_mul, hcong, pow_succ]
    ring
  · rw [if_neg h1]
    by_cases h2 : p / 3 ≤ x ∧ x < w64 (2 * p) / 3
    · rw [if_pos h2]
      refine ⟨Nat.mod_lt _ hp0, Nat.mod_lt _ hp1, Nat.mod_lt _ hp1, ?_⟩
      have hw2a : w64 (2 * a) = 2 * a := by
        unfold w64; exact Nat.mod_eq_of_lt (by omega)
      have hw2b : w64 (2 * b) = 2 * b := by
        unfold w64; exact Nat.mod_eq_of_lt (by omega)
      have hxsq : w64 (x ^ 2) = x ^ 2 := by
        unfold w64
        exact Nat.mod_eq_of_lt (lt_of_le_of_lt
          (Nat.pow_le_pow_left (by omega) 2) hsq)
      rw [hxsq, hw2a, hw2b, ZMod.natCast_mod,
        pow_mod_card_sub_one p _ hGne, pow_mod_card_sub_one p _ hHne,
        Nat.cast_pow, hcong]
      ring
    · rw [if_neg h2]
      refine ⟨Nat.mod_lt _ hp0, ha, Nat.mod_lt _ hp1, ?_⟩
      have hw3 : w64 (b + 1) = b + 1 := by
        unfold w64; exact Nat.mod_eq_of_lt (by omega)
      rw [wsmall hv x (by omega) (by omega), hw3, ZMod.natCast_mod,
        pow_mod_card_sub_one p _ hHne, Nat.cast_mul, hcong, pow_succ]
      ring

theorem logInv_new (p g h : Nat) (hp3 : 3 ≤ p) :
    LogInv p g h (PollardsLog.new p g h) := by
  refine ⟨rfl, rfl, rfl, by show 1 < p; omega, by show 1 < p; omega,
    by show 0 < p - 1; omega, by show 0 < p - 1; omega,
    by show 0 < p - 1; omega, by show 0 < p - 1; omega, ?_, ?_⟩ <;>
  · show ((1 : Nat) : ZMod p) = (g : ZMod p) ^ 0 * (h : ZMod p) ^ 0
    simp

theorem logInv_next (p gv hv : Nat) [Fact (Nat.Prime p)] (hp3 : 3 ≤ p)
    (hsq : (p - 1) ^ 2 < 2 ^ 64)
    (hg1 : 1 ≤ gv) (hgp : gv < p) (hh1 : 1 ≤ hv) (hhp : hv < p)
    (s : PollardsLog) (hInv : LogInv p gv hv s) :
    LogInv p gv hv s.next := by
  obtain ⟨hsp, hsg, hsh, hx, hy, ha, hb, hc, hd, hcx, hcy⟩ := hInv
  unfold PollardsLog.next
  by_cases hf : s.finished
  · rw [if_pos hf]
    exact ⟨hsp, hsg, hsh, hx, hy, ha, hb, hc, hd, hcx, hcy⟩
  · rw [if_neg hf]
    obtain ⟨hx1, ha1, hb1, hcong1⟩ :=
      mix_preserves p gv hv hp3 hsq hg1 hgp hh1 hhp s hsp hsg hsh
        s.xi s.ai s.bi hx ha hb hcx
    obtain ⟨hy1, hc1, hd1, hcong2⟩ :=
      mix_preserves p gv hv hp3 hsq hg1 hgp hh1 hhp s hsp hsg hsh
        s.yi s.gi s.di hy hc hd hcy
    obtain ⟨hy2, hc2, hd2, hcong3⟩ :=
      mix_preserves p gv hv hp3 hsq hg1 hgp hh1 hhp s hsp hsg hsh
        (s.mix s.yi s.gi s.di).1 (s.mix s.yi s.gi s.di).2.1
        (s.mix s.yi s.gi s.di).2.2 hy1 hc1 hd1 hcong2
    exact ⟨hsp, hsg, hsh, hx1, hy2, ha1, hb1, hc2, hd2, hcong1, hcong3⟩

theorem logInv_run (p g h k : Nat) [Fact (Nat.Prime p)] (hp3 : 3 ≤ p)
    (hsq : (p - 1) ^ 2 < 2 ^ 64)
    (hg1 : 1 ≤ g) (hgp : g < p) (hh1 : 1 ≤ h) (hhp : h < p) :
    LogInv p g h ((PollardsLog.next)^[k] (PollardsLog.new p g h)) := by
  induction k with
  | zero => exact logInv_new p g h hp3
  | succ k ih =>
    rw [Function.iterate_succ_apply']
    exact logInv_next p g h hp3 hsq hg1 hgp hh1 hhp _ ih

/-- **C1.**  DLogWalk invariant: for every odd prime `p` with
`(p-1)² < 2^64` and every `g, h ∈ [1, p)`, every state reachable from
`PollardsLog::new(p, g, h)` by `next()` calls satisfies
`x ≡ g^a · h^b (mod p)` and `y ≡ g^c · h^d (mod p)` (here `c`, `d` are the
fields `gi`, `di`). -/
theorem c1_dlogwalk_invariant (p g h k : Nat) (hp : Nat.Prime p)
    (hodd : Odd p) (hsq : (p - 1) ^ 2 < 2 ^ 64)
    (hg1 : 1 ≤ g) (hgp : g < p) (hh1 : 1 ≤ h) (hhp : h < p) :
    ((PollardsLog.next)^[k] (PollardsLog.new p g h)).xi ≡
      g ^ ((PollardsLog.next)^[k] (PollardsLog.new p g h)).ai *
      h ^ ((PollardsLog.next)^[k] (PollardsLog.new p g h)).bi [MOD p]
    ∧ ((PollardsLog.next)^[k] (PollardsLog.new p g h)).yi ≡
      g ^ ((PollardsLog.next)^[k] (PollardsLog.new p g h)).gi *
      h ^ ((PollardsLog.next)^[k] (PollardsLog.new p g h)).di [MOD p] := by
  haveI : Fact (Nat.Prime p) := ⟨hp⟩
  have hp3 : 3 ≤ p := by
    have h2 := hp.two_le
    rcases Nat.lt_or_ge p 3 with hlt | hge
    · interval_cases p
      exact absurd hodd (by decide)
    · exact hge
  obtain ⟨_, _, _, _, _, _, _, _, _, hcx, hcy⟩ :=
    logInv_run p g h k hp3 hsq hg1 hgp hh1 hhp
  constructor
  · rw [← ZMod.natCast_eq_natCast_iff]
    rw [hcx]; push_cast; ring
  · rw [← ZMod.natCast_eq_natCast_iff]
    rw [hcy]; push_cast; ring

/-- Witness for C1 at `p = 5011`, `g = 2`, `h = 2495`, three steps. -/
theorem c1_dlogwalk_invariant_witness :
    (Nat.Prime 5011 ∧ Odd 5011 ∧ (5011 - 1) ^ 2 < 2 ^ 64
      ∧ 1 ≤ 2 ∧ 2 < 5011 ∧ 1 ≤ 2495 ∧ 2495 < 5011)
    ∧ (((PollardsLog.next)^[3] (PollardsLog.new 5011 2 2495)).xi ≡
        2 ^ ((PollardsLog.next)^[3] (PollardsLog.new 5011 2 2495)).ai *
        2495 ^ ((PollardsLog.next)^[3] (PollardsLog.new 5011 2 2495)).bi [MOD 5011]
      ∧ ((PollardsLog.next)^[3] (PollardsLog.new 5011 2 2495)).yi ≡
        2 ^ ((PollardsLog.next)^[3] (PollardsLog.new 5011 2 2495)).gi *
        2495 ^ ((PollardsLog.next)^[3] (PollardsLog.new 5011 2 2495)).di [MOD 5011]) :=
  ⟨⟨by norm_num, by decide, by norm_num, by norm_num, by norm_num,
     by norm_num, by norm_num⟩,
   c1_dlogwalk_invariant 5011 2 2495 3 (by norm_num) (by decide)
     (by norm_num) (by norm_num) (by norm_num) (by norm_num) (by norm_num)⟩

end DiscreteLogServer

namespace DiscreteLogServer

/-! ## Soundness of `miller_rabin` on primes (C6) -/

/-- The even-split loop computes the 2-adic decomposition of its input:
on `0 < q₀` it terminates with an odd quotient and the exact exponent. -/
theorem evenSplitAux_spec : ∀ fuel q0 k0, 0 < q0 → q0 < fuel →
    ∃ q' j, evenSplitAux fuel q0 k0 = some (q', k0 + j)
      ∧ q' % 2 = 1 ∧ q0 = 2 ^ j * q' := by
  intro fuel
  induction fuel with
  | zero => intro q0 k0 h1 h2; omega
  | succ fuel ih =>
    intro q0 k0 h1 h2
    rw [evenSplitAux]
    by_cases he : q0 % 2 = 0
    · rw [if_pos he]
      obtain ⟨q', j, heq, hodd, hdecomp⟩ := ih (q0 / 2) (k0 + 1) (by omega) (by omega)
      refine ⟨q', j + 1, ?_, hodd, ?_⟩
      · rw [heq]; congr 2; omega
      · have h2q : q0 = 2 * (q0 / 2) := by omega
        rw [h2q, hdecomp, pow_succ]; ring
    · rw [if_neg he]
      exact ⟨q0, 0, by norm_num, by omega, by norm_num⟩

/-- `evenSplit m` for `m > 0`: `m = 2^k * q` with `q` odd. -/
theorem evenSplit_spec (m : Nat) (hm : 0 < m) :
    ∃ q k, evenSplit m = some (q, k) ∧ q % 2 = 1 ∧ m = 2 ^ k * q := by
  obtain ⟨q, j, heq, hodd, hdec⟩ :=
    evenSplitAux_spec (m + 1) m 0 hm (Nat.lt_succ_self m)
  exact ⟨q, j, by rw [evenSplit, heq]; congr 2; omega, hodd, hdec⟩

/-- Reducing both factors mod `n` before a multiply-power does not change
the residue. -/
theorem modMulPow (n a b k : Nat) :
    (a % n) * (b % n) ^ k % n = a * b ^ k % n := by
  rw [Nat.mul_mod, Nat.mod_mod_of_dvd _ dvd_rfl, ← Nat.pow_mod, ← Nat.mul_mod]

/-- Reducing the base of the power mod `n` does not change the residue. -/
theorem mulModPow (n a b k : Nat) :
    a * (b % n) ^ k % n = a * b ^ k % n := by
  rw [Nat.mul_mod, ← Nat.pow_mod, ← Nat.mul_mod]

/-- `fast_power` computes modular exponentiation whenever `(n-1)^2 < 2^64`,
so that no intermediate product wraps. -/
theorem fastPowerAux_spec : ∀ fuel e r g n, e < fuel → 0 < n → r < n → g < n →
    (n - 1) * (n - 1) < 2 ^ 64 →
    fastPowerAux fuel r g e n = some (r * g ^ e % n) := by
  intro fuel
  induction fuel with
  | zero => intro e r g n he _ _ _ _; omega
  | succ fuel ih =>
    intro e r g n he hn hr hg hsq
    by_cases he0 : e = 0
    · subst he0
      rw [fastPowerAux, if_pos rfl, pow_zero, mul_one, Nat.mod_eq_of_lt hr]
    · have hlt : ∀ x y : Nat, x < n → y < n → x * y < 2 ^ 64 := by
        intro x y hx hy
        calc x * y ≤ (n - 1) * (n - 1) := Nat.mul_le_mul (by omega) (by omega)
          _ < 2 ^ 64 := hsq
      have hgg : w64 (g * g) = g * g := Nat.mod_eq_of_lt (hlt g g hg hg)
      have hrg : w64 (r * g) = r * g := Nat.mod_eq_of_lt (hlt r g hr hg)
      rw [fastPowerAux, if_neg he0, if_neg (by omega)]
      simp only [hgg, hrg]
      by_cases hpar : e % 2 = 1
      · rw [if_pos hpar]
        rw [ih (e / 2) (r * g % n) (g * g % n) n (by omega) hn
          (Nat.mod_lt _ hn) (Nat.mod_lt _ hn) hsq]
        congr 1
        rw [modMulPow]
        conv_rhs => rw [show e = 2 * (e / 2) + 1 from by omega]
        congr 1
        ring
      · rw [if_neg hpar]
        rw [ih (e / 2) r (g * g % n) n (by omega) hn hr (Nat.mod_lt _ hn) hsq]
        congr 1
        rw [mulModPow]
        conv_rhs => rw [show e = 2 * (e / 2) from by omega]
        congr 1
        ring

/-- The squaring loop of `miller_rabin` returns `false` as soon as some
iterated square of `a` is `n - 1` modulo `n`. -/
theorem mrLoop_false (n : Nat) (hn : 3 ≤ n) (hsq : (n - 1) * (n - 1) < 2 ^ 64) :
    ∀ k a, a < n → (∃ i, i < k ∧ a ^ 2 ^ i % n = n - 1) →
    mrLoop n a k = some false := by
  intro k
  induction k with
  | zero => rintro a _ ⟨i, hi, _⟩; omega
  | succ k ih =>
    rintro a ha ⟨i, hik, hwit⟩
    rw [mrLoop]
    by_cases h0 : a % n = n - 1
    · rw [if_pos h0]
    · rw [if_neg h0]
      have hi0 : i ≠ 0 := by
        intro hcon
        subst hcon
        rw [pow_zero, pow_one, Nat.mod_eq_of_lt ha] at hwit
        exact h0 (by rw [Nat.mod_eq_of_lt ha]; exact hwit)
      have haa : a * a < 2 ^ 64 :=
        lt_of_le_of_lt (Nat.mul_le_mul (by omega) (by omega)) hsq
      apply ih (w64 (a * a) % n) (Nat.mod_lt _ (by omega))
      refine ⟨i - 1, by omega, ?_⟩
      rw [w64, Nat.mod_eq_of_lt haa, ← Nat.pow_mod]
      rw [show (a * a) ^ 2 ^ (i - 1) = a ^ 2 ^ i from ?_]
      · exact hwit
      · rw [show (2:Nat) ^ i = 2 ^ (i - 1) * 2 from ?_]
        · rw [pow_mul]; ring
        · rw [← pow_succ]; congr 1; omega

/-- Square-root descent in the prime field: if `A^(2^j·q) = 1` then either
`A^q = 1` or some earlier square root along the chain is `-1`. -/
theorem zmod_descent (p : Nat) [Fact (Nat.Prime p)] (A : ZMod p) (q : Nat) :
    ∀ j, A ^ (2 ^ j * q) = 1 → A ^ q = 1 ∨ ∃ i, i < j ∧ A ^ (2 ^ i * q) = -1 := by
  intro j
  induction j with
  | zero => intro h; left; simpa using h
  | succ j ih =>
    intro h
    have hsq : A ^ (2 ^ j * q) * A ^ (2 ^ j * q) = 1 := by
      rw [← pow_add, show 2 ^ j * q + 2 ^ j * q = 2 ^ (j + 1) * q from by
        rw [pow_succ]; ring]
      exact h
    rcases mul_self_eq_one_iff.mp hsq with h1 | h1
    · rcases ih h1 with h2 | ⟨i, hi, h2⟩
      · left; exact h2
      · right; exact ⟨i, by omega, h2⟩
    · right; exact ⟨j, by omega, h1⟩

/-- Two naturals below `n` are equal in `ZMod n` only if equal. -/
theorem eq_of_natCast_eq (n x y : Nat) (_hn : 0 < n) (hx : x < n) (hy : y < n)
    (h : (x : ZMod n) = (y : ZMod n)) : x = y := by
  rw [ZMod.natCast_eq_natCast_iff] at h
  have := h
  rw [Nat.ModEq] at this
  rw [Nat.mod_eq_of_lt hx, Nat.mod_eq_of_lt hy] at this
  exact this

/-- **C6.**  `miller_rabin_witness` never accuses a prime: for every `n`
with `(n-1)^2 < 2^64` and every base `a ∈ [2, n)`, if `n` is prime then
`miller_rabin(n, a)` returns `false`.  Equivalently, a `true` return value
proves `n` composite. -/
theorem c6_miller_rabin_sound (n a : Nat) (hprime : Nat.Prime n)
    (ha2 : 2 ≤ a) (han : a < n) (hsq : (n - 1) * (n - 1) < 2 ^ 64) :
    millerRabin n a = some false := by
  have hn3 : 3 ≤ n := by
    have h2 := hprime.two_le
    rcases Nat.lt_or_ge n 3 with h | h
    · interval_cases n; omega
    · exact h
  have hodd : n % 2 = 1 := Nat.odd_iff.mp (hprime.odd_of_ne_two (by omega))
  have hFact : Fact (Nat.Prime n) := ⟨hprime⟩
  have hgcd1 : Nat.gcd a n = 1 := by
    rw [Nat.gcd_comm]
    exact (Nat.Prime.coprime_iff_not_dvd hprime).mpr
      (fun hdvd => absurd (Nat.le_of_dvd (by omega) hdvd) (by omega))
  have hg : gcd a n = some 1 := by
    rw [gcd_eq_gcd a n (by omega) (by omega), hgcd1]
  obtain ⟨q, k, hes, hqodd, hdec⟩ := evenSplit_spec (n - 1) (by omega)
  have hfp : fastPower a q n = some (a ^ q % n) := by
    rw [fastPower, fastPowerAux_spec (q + 1) q 1 a n (Nat.lt_succ_self q)
      (by omega) (by omega) han hsq, one_mul]
  simp only [millerRabin, hg, hes, hfp]
  rw [if_neg (by omega)]
  rw [Nat.mod_mod_of_dvd _ dvd_rfl]
  by_cases h1 : a ^ q % n = 1
  · rw [if_pos h1]
  · rw [if_neg h1]
    -- the square-root descent in the prime field
    have hAne : (a : ZMod n) ≠ 0 := natCast_ne_zero_of_lt n a (by omega) han
    have hfermat : (a : ZMod n) ^ (2 ^ k * q) = 1 := by
      rw [← hdec]
      exact ZMod.pow_card_sub_one_eq_one hAne
    rcases zmod_descent n (a : ZMod n) q k hfermat with hq1 | ⟨i, hik, hneg⟩
    · exfalso
      apply h1
      apply eq_of_natCast_eq n (a ^ q % n) 1 (by omega)
        (Nat.mod_lt _ (by omega)) (by omega)
      rw [Nat.cast_one, ZMod.natCast_mod, Nat.cast_pow]
      exact hq1
    · apply mrLoop_false n hn3 hsq k (a ^ q % n) (Nat.mod_lt _ (by omega))
      refine ⟨i, hik, ?_⟩
      apply eq_of_natCast_eq n ((a ^ q % n) ^ 2 ^ i % n) (n - 1) (by omega)
        (Nat.mod_lt _ (by omega)) (by omega)
      rw [ZMod.natCast_mod, Nat.cast_pow, ZMod.natCast_mod, Nat.cast_pow]
      rw [← pow_mul, mul_comm q (2 ^ i), hneg]
      rw [Nat.cast_sub (by omega), Nat.cast_one, ZMod.natCast_self]
      ring


/-- Witness for C6 at the prime `n = 5011` with base `a = 2`: the
hypotheses hold and `miller_rabin` indeed answers `false`. -/
theorem c6_miller_rabin_sound_witness :
    Nat.Prime 5011 ∧ 2 ≤ 2 ∧ 2 < 5011 ∧ (5011 - 1) * (5011 - 1) < 2 ^ 64
      ∧ millerRabin 5011 2 = some false :=
  ⟨by norm_num, by norm_num, by norm_num, by norm_num,
    c6_miller_rabin_sound 5011 2 (by norm_num) (by norm_num) (by norm_num)
      (by norm_num)⟩

/-! ## `gcd_mul_inverse` (C3) -/

/-- **C3 (counterexample).**  With release (wrapping) `u64` arithmetic the
function can return a wrong answer: for `m = 275` and
`v = 17421924958503465415` (so `d = gcd(v, m) = 5` and
`(s, t) = ext_gcd_coeffs(v, m) = (1140344179102045009, 18)`), all three
guarded branches are skipped because their products wrap, the fall-through
branch returns `w = 59`, its internal assert passes only because `v · 59`
also wraps — and in fact `v · 59 ≡ 60 ≢ 5 (mod 275)`. -/
theorem c3_counterexample :
    gcd 17421924958503465415 275 = some 5
    ∧ gcdWeights 17421924958503465415 275 = some (1140344179102045009, 18)
    ∧ gcdMulInverse 275 17421924958503465415 5 1140344179102045009 18 = some 59
    ∧ ¬ (17421924958503465415 * 59 ≡ 5 [MOD 275]) := by
  refine ⟨by decide, by decide, by decide, by decide⟩

theorem chk_eq_some (x y : Nat) (h : chk x = some y) : y = x ∧ x < 2 ^ 64 := by
  unfold chk at h
  by_cases hx : x < 2 ^ 64
  · rw [if_pos hx, Option.some_inj] at h; exact ⟨h.symm, hx⟩
  · rw [if_neg hx] at h; exact Option.noConfusion h

theorem doubleLoopChecked_spec (fuel : Nat) : ∀ m t m' : Nat,
    doubleLoopChecked fuel m t = some m' → m ∣ m' ∧ (0 < m → 0 < m') := by
  induction fuel with
  | zero => intro m t m' h; exact Option.noConfusion h
  | succ fuel ih =>
    intro m t m' h
    rw [doubleLoopChecked] at h
    by_cases hc : m < t
    · rw [if_pos hc] at h
      cases hchk : chk (m + m) with
      | none => rw [hchk] at h; exact Option.noConfusion h
      | some m2 =>
        rw [hchk] at h
        obtain ⟨hm2, _⟩ := chk_eq_some _ _ hchk
        obtain ⟨hdvd, hpos⟩ := ih m2 t m' h
        subst hm2
        exact ⟨dvd_trans ⟨2, by ring⟩ hdvd, fun hm => hpos (by omega)⟩
    · rw [if_neg hc, Option.some_inj] at h
      subst h
      exact ⟨dvd_refl m, id⟩

/-- **C3 (amended).**  Under overflow-checked (debug-build) arithmetic —
i.e. whenever the computation completes without any intermediate `u64`
overflow — the returned value is correct: for `m, v ≥ 1`, with
`d = gcd(v, m)` and `(s, t) = ext_gcd_coeffs(v, m)`, if
`mod_inverse(m, v, d, s, t)` returns `w` then `v · w ≡ d (mod m)`.
(The function's own asserts enforce this: each branch checks
`(v · v_inv) % m' = d` for `m'` a multiple of `m`.) -/
theorem c3_amended_mod_inverse_checked (m v d s t w : Nat)
    (hm : 1 ≤ m) (_hv : 1 ≤ v)
    (_hd : gcd v m = some d) (_hst : gcdWeights v m = some (s, t))
    (hw : gcdMulInverseChecked m v d s t = some w) :
    v * w ≡ d [MOD m] := by
  unfold gcdMulInverseChecked at hw
  cases h1 : chk (m * s) with
  | none => rw [h1] at hw; exact Option.noConfusion hw
  | some ms =>
  cases h2 : chk (v * t) with
  | none => rw [h1, h2] at hw; exact Option.noConfusion hw
  | some vt =>
  cases h3 : chk (m * t) with
  | none => rw [h1, h2, h3] at hw; exact Option.noConfusion hw
  | some mt =>
  cases h4 : chk (v * s) with
  | none => rw [h1, h2, h3, h4] at hw; exact Option.noConfusion hw
  | some vs =>
  rw [h1, h2, h3, h4] at hw
  dsimp only at hw
  have hm0 : 0 < m := hm
  by_cases hb1 : ms > vt ∧ ms - vt = d
  · rw [if_pos hb1] at hw
    cases hdl : doubleLoopChecked 128 m t with
    | none => rw [hdl] at hw; exact Option.noConfusion hw
    | some m' =>
      rw [hdl] at hw
      dsimp only at hw
      obtain ⟨hdvd, hpos⟩ := doubleLoopChecked_spec 128 m t m' hdl
      cases ha : chk (v * ((m' - t) % m')) with
      | none => rw [ha] at hw; exact Option.noConfusion hw
      | some a =>
        rw [ha] at hw
        dsimp only at hw
        obtain ⟨haeq, _⟩ := chk_eq_some _ _ ha
        by_cases hassert : a % m' = d
        · rw [if_pos hassert, Option.some_inj] at hw
          subst hw; subst haeq
          have : v * ((m' - t) % m') ≡ d [MOD m'] := by
            show v * ((m' - t) % m') % m' = d % m'
            rw [hassert, Nat.mod_eq_of_lt
              (by rw [← hassert]; exact Nat.mod_lt _ (hpos hm0))]
          exact this.of_dvd hdvd
        · rw [if_neg hassert] at hw; exact Option.noConfusion hw
  · rw [if_neg hb1] at hw
    by_cases hb2 : mt > vs ∧ mt - vs = d
    · rw [if_pos hb2] at hw
      cases hdl : doubleLoopChecked 128 m s with
      | none => rw [hdl] at hw; exact Option.noConfusion hw
      | some m' =>
        rw [hdl] at hw
        dsimp only at hw
        obtain ⟨hdvd, hpos⟩ := doubleLoopChecked_spec 128 m s m' hdl
        cases ha : chk (v * ((m' - s) % m')) with
        | none => rw [ha] at hw; exact Option.noConfusion hw
        | some a =>
          rw [ha] at hw
          dsimp only at hw
          obtain ⟨haeq, _⟩ := chk_eq_some _ _ ha
          by_cases hassert : a % m' = d
          · rw [if_pos hassert, Option.some_inj] at hw
            subst hw; subst haeq
            have : v * ((m' - s) % m') ≡ d [MOD m'] := by
              show v * ((m' - s) % m') % m' = d % m'
              rw [hassert, Nat.mod_eq_of_lt
                (by rw [← hassert]; exact Nat.mod_lt _ (hpos hm0))]
            exact this.of_dvd hdvd
          · rw [if_neg hassert] at hw; exact Option.noConfusion hw
    · rw [if_neg hb2] at hw
      by_cases hb3 : vt > ms ∧ vt - ms = d
      · rw [if_pos hb3] at hw
        cases ha : chk (v * (t % m)) with
        | none => rw [ha] at hw; exact Option.noConfusion hw
        | some a =>
          rw [ha] at hw
          dsimp only at hw
          obtain ⟨haeq, _⟩ := chk_eq_some _ _ ha
          by_cases hassert : a % m = d
          · rw [if_pos hassert, Option.some_inj] at hw
            subst hw; subst haeq
            show v * (t % m) % m = d % m
            rw [hassert, Nat.mod_eq_of_lt
              (by rw [← hassert]; exact Nat.mod_lt _ hm0)]
          · rw [if_neg hassert] at hw; exact Option.noConfusion hw
      · rw [if_neg hb3] at hw
        cases ha : chk (v * (s % m)) with
        | none => rw [ha] at hw; exact Option.noConfusion hw
        | some a =>
          rw [ha] at hw
          dsimp only at hw
          obtain ⟨haeq, _⟩ := chk_eq_some _ _ ha
          by_cases hassert : a % m = d
          · rw [if_pos hassert, Option.some_inj] at hw
            subst hw; subst haeq
            show v * (s % m) % m = d % m
            rw [hassert, Nat.mod_eq_of_lt
              (by rw [← hassert]; exact Nat.mod_lt _ hm0)]
          · rw [if_neg hassert] at hw; exact Option.noConfusion hw

/-- Witness for the amended C3 on the repository's own test data
`(a, b) = (100, 80)`: `d = 20`, `(s, t) = (1, 1)`, `w = 99`, and indeed
`80 · 99 = 7920 ≡ 20 (mod 100)`. -/
theorem c3_amended_mod_inverse_checked_witness :
    (1 ≤ 100 ∧ 1 ≤ 80 ∧ gcd 80 100 = some 20
      ∧ gcdWeights 80 100 = some (1, 1)
      ∧ gcdMulInverseChecked 100 80 20 1 1 = some 99)
    ∧ 80 * 99 ≡ 20 [MOD 100] :=
  ⟨⟨by norm_num, by norm_num, by decide, by decide, by decide⟩,
   c3_amended_mod_inverse_checked 100 80 20 1 1 99 (by norm_num) (by norm_num)
     (by decide) (by decide) (by decide)⟩

end DiscreteLogServer

namespace DiscreteLogServer

/-! ## `src/lib.rs` : the wire codec

Byte arrays `[u8; 25]` / `[u8; 57]` are modelled as `List Nat` (entries are
always below 256).  An `f32` is represented by its IEEE-754 bit pattern
(`f32::to_bits` / `from_bits` are exact mutually inverse bit casts, and the
codec only ever moves those bits). -/

/-- `PollardsLogItem` (src/algo/mod.rs): the data of one DLog walk step. -/
structure PollardsLogItem where
  i : Nat
  xi : Nat
  ai : Nat
  bi : Nat
  yi : Nat
  gi : Nat
  di : Nat
  deriving DecidableEq

/-- `PollardsRSAFactItem` (src/algo/mod.rs): one factoring walk step. -/
structure PollardsRSAFactItem where
  i : Nat
  xi : Nat
  yi : Nat
  g : Nat
  n : Nat
  deriving DecidableEq

/-- `Frame::serialize_8_bytes`:
`for i in 0..8 { tag[i + idx] ^= ((val >> (8 * i)) & 0xff) as u8 }`. -/
def frameSer8 (tag : List Nat) (idx val : Nat) : List Nat :=
  (List.range 8).foldl
    (fun t i => t.set (i + idx) ((t.getD (i + idx) 0) ^^^ ((val >>> (8 * i)) &&& 0xff)))
    tag

/-- `Frame::deserialize_8_bytes`:
`for i in 0..8 { *val ^= (tag[i + idx] as u64) << (i * 8) }`. -/
def frameDeser8 (tag : List Nat) (idx val : Nat) : Nat :=
  (List.range 8).foldl (fun v i => v ^^^ ((tag.getD (i + idx) 0) <<< (i * 8))) val

/-- `Response::serialize_8_bytes`:
`for i in 0..8 { tag[i + idx] ^= ((val >> (i * 8)) & 0xff) as u8 }`. -/
def respSer8 (tag : List Nat) (idx val : Nat) : List Nat :=
  (List.range 8).foldl
    (fun t i => t.set (i + idx) ((t.getD (i + idx) 0) ^^^ ((val >>> (i * 8)) &&& 0xff)))
    tag

/-- `Response::deserialize_8_bytes`:
`for i in 0..8 { *val ^= (tag[idx + i] as u64) << (i * 8) }`. -/
def respDeser8 (tag : List Nat) (idx val : Nat) : Nat :=
  (List.range 8).foldl (fun v i => v ^^^ ((tag.getD (idx + i) 0) <<< (i * 8))) val

/-- `Response::serialize_4_bytes` (the `f32` probability, as its bits). -/
def respSer4 (tag : List Nat) (idx val : Nat) : List Nat :=
  (List.range 4).foldl
    (fun t i => t.set (i + idx) ((t.getD (i + idx) 0) ^^^ ((val >>> (i * 8)) &&& 0xff)))
    tag

/-- `Response::deserialize_4_bytes`:
`for i in 0..4 { *val ^= (tag[i + idx] as u32) << (i * 8) }`. -/
def respDeser4 (tag : List Nat) (idx val : Nat) : Nat :=
  (List.range 4).foldl (fun v i => v ^^^ ((tag.getD (i + idx) 0) <<< (i * 8))) val

/-- `lib.rs::Frame`, the 25-byte request. -/
inductive Frame where
  | log (g h p : Nat)
  | rsa (n e : Nat)
  | prime (p : Nat)
  | quit
  deriving DecidableEq

/-- All numeric fields fit in a `u64` (automatic in Rust from the types). -/
def Frame.wf : Frame → Prop
  | .log g h p => g < 2 ^ 64 ∧ h < 2 ^ 64 ∧ p < 2 ^ 64
  | .rsa n e => n < 2 ^ 64 ∧ e < 2 ^ 64
  | .prime p => p < 2 ^ 64
  | .quit => True

/-- `<Frame as BytesSer>::serialize`. -/
def Frame.serialize : Frame → List Nat
  | .log g h p =>
    let tag := List.replicate 25 0
    let tag := tag.set 0 ((tag.getD 0 0) ^^^ 1)
    frameSer8 (frameSer8 (frameSer8 tag 1 g) 9 h) 17 p
  | .rsa n e =>
    let tag := List.replicate 25 0
    let tag := tag.set 0 ((tag.getD 0 0) ^^^ 2)
    frameSer8 (frameSer8 tag 1 n) 9 e
  | .prime p =>
    let tag := List.replicate 25 0
    let tag := tag.set 0 ((tag.getD 0 0) ^^^ 3)
    frameSer8 tag 1 p
  | .quit =>
    let tag := List.replicate 25 0
    tag.set 0 ((tag.getD 0 0) ^^^ 4)

/-- `<Frame as BytesDeser>::deserialize`; the final `panic!` on an unknown
type byte is `none`. -/
def Frame.deserialize (tag : List Nat) : Option Frame :=
  let typeByte := tag.getD 0 0
  if typeByte ^^^ 1 = 0 then
    some (Frame.log (frameDeser8 tag 1 0) (frameDeser8 tag 9 0) (frameDeser8 tag 17 0))
  else if typeByte ^^^ 2 = 0 then
    some (Frame.rsa (frameDeser8 tag 1 0) (frameDeser8 tag 9 0))
  else if typeByte ^^^ 3 = 0 then
    some (Frame.prime (frameDeser8 tag 1 0))
  else if typeByte ^^^ 4 = 0 then
    some Frame.quit
  else
    none

/-- `lib.rs::Response`.  `prob` is the `f32` probability as its 32-bit
pattern; `log`/`rsa` embed the whole walk state and are never sent raw. -/
inductive Response where
  | connectionOk
  | notPrime (p : Nat)
  | prime (p : Nat) (prob : Nat)
  | log (pollards : PollardsLog)
  | logItem (item : PollardsLogItem)
  | successfulLog (log g h p : Nat)
  | unsuccessfulLog (g h p : Nat)
  | rsa (pollards : PollardsRSAFact)
  | rsaItem (item : PollardsRSAFactItem)
  | successfulRSA (p q : Nat)
  | unsuccessfulRSA (n : Nat)
  deriving DecidableEq

/-- Numeric fields fit their machine types (`u64`; `u32` for `prob`). -/
def Response.wf : Response → Prop
  | .connectionOk => True
  | .notPrime p => p < 2 ^ 64
  | .prime p prob => p < 2 ^ 64 ∧ prob < 2 ^ 32
  | .log _ => True
  | .logItem it => it.i < 2 ^ 64 ∧ it.xi < 2 ^ 64 ∧ it.ai < 2 ^ 64
      ∧ it.bi < 2 ^ 64 ∧ it.yi < 2 ^ 64 ∧ it.gi < 2 ^ 64 ∧ it.di < 2 ^ 64
  | .successfulLog l g h p => l < 2 ^ 64 ∧ g < 2 ^ 64 ∧ h < 2 ^ 64 ∧ p < 2 ^ 64
  | .unsuccessfulLog g h p => g < 2 ^ 64 ∧ h < 2 ^ 64 ∧ p < 2 ^ 64
  | .rsa _ => True
  | .rsaItem it => it.i < 2 ^ 64 ∧ it.xi < 2 ^ 64 ∧ it.yi < 2 ^ 64
      ∧ it.g < 2 ^ 64 ∧ it.n < 2 ^ 64
  | .successfulRSA p q => p < 2 ^ 64 ∧ q < 2 ^ 64
  | .unsuccessfulRSA n => n < 2 ^ 64

/-- The nine wire variants — everything except the two embedded-walk
variants `Response::Log { pollards }` and `Response::RSA { pollards }`,
which `serialize` panics on. -/
def Response.wire : Response → Prop
  | .log _ => False
  | .rsa _ => False
  | _ => True

/-- `<Response as BytesSer>::serialize`; the catch-all
`_ => panic!("`Response` variant cannot be serialized.")` is `none`. -/
def Response.serialize : Response → Option (List Nat)
  | .connectionOk =>
    let tag := List.replicate 57 0
    some (tag.set 0 ((tag.getD 0 0) ^^^ 1))
  | .notPrime p =>
    let tag := List.replicate 57 0
    let tag := tag.set 0 ((tag.getD 0 0) ^^^ 2)
    some (respSer8 tag 1 p)
  | .prime p prob =>
    let tag := List.replicate 57 0
    let tag := tag.set 0 ((tag.getD 0 0) ^^^ 3)
    some (respSer4 (respSer8 tag 1 p) 9 prob)
  | .logItem it =>
    let tag := List.replicate 57 0
    let tag := tag.set 0 ((tag.getD 0 0) ^^^ 4)
    some (respSer8 (respSer8 (respSer8 (respSer8 (respSer8 (respSer8 (respSer8
      tag 1 it.i) 9 it.xi) 17 it.ai) 25 it.bi) 33 it.yi) 41 it.gi) 49 it.di)
  | .successfulLog l g h p =>
    let tag := List.replicate 57 0
    let tag := tag.set 0 ((tag.getD 0 0) ^^^ 5)
    some (respSer8 (respSer8 (respSer8 (respSer8 tag 1 l) 9 g) 17 h) 25 p)
  | .unsuccessfulLog g h p =>
    let tag := List.replicate 57 0
    let tag := tag.set 0 ((tag.getD 0 0) ^^^ 6)
    some (respSer8 (respSer8 (respSer8 tag 1 g) 9 h) 17 p)
  | .rsaItem it =>
    let tag := List.replicate 57 0
    let tag := tag.set 0 ((tag.getD 0 0) ^^^ 7)
    some (respSer8 (respSer8 (respSer8 (respSer8 (respSer8
      tag 1 it.i) 9 it.xi) 17 it.yi) 25 it.g) 33 it.n)
  | .successfulRSA p q =>
    let tag := List.replicate 57 0
    let tag := tag.set 0 ((tag.getD 0 0) ^^^ 8)
    some (respSer8 (respSer8 tag 1 p) 9 q)
  | .unsuccessfulRSA n =>
    let tag := List.replicate 57 0
    let tag := tag.set 0 ((tag.getD 0 0) ^^^ 9)
    some (respSer8 tag 1 n)
  | .log _ => none
  | .rsa _ => none

/-- `<Response as BytesDeser>::deserialize`; the `panic!` on an invalid type
byte is `none`. -/
def Response.deserialize (tag : List Nat) : Option Response :=
  match tag.getD 0 0 with
  | 1 => some Response.connectionOk
  | 2 => some (Response.notPrime (respDeser8 tag 1 0))
  | 3 => some (Response.prime (respDeser8 tag 1 0) (respDeser4 tag 9 0))
  | 4 => some (Response.logItem
      { i := respDeser8 tag 1 0, xi := respDeser8 tag 9 0,
        ai := respDeser8 tag 17 0, bi := respDeser8 tag 25 0,
        yi := respDeser8 tag 33 0, gi := respDeser8 tag 41 0,
        di := respDeser8 tag 49 0 })
  | 5 => some (Response.successfulLog (respDeser8 tag 1 0) (respDeser8 tag 9 0)
      (respDeser8 tag 17 0) (respDeser8 tag 25 0))
  | 6 => some (Response.unsuccessfulLog (respDeser8 tag 1 0) (respDeser8 tag 9 0)
      (respDeser8 tag 17 0))
  | 7 => some (Response.rsaItem
      { i := respDeser8 tag 1 0, xi := respDeser8 tag 9 0,
        yi := respDeser8 tag 17 0, g := respDeser8 tag 25 0,
        n := respDeser8 tag 33 0 })
  | 8 => some (Response.successfulRSA (respDeser8 tag 1 0) (respDeser8 tag 9 0))
  | 9 => some (Response.unsuccessfulRSA (respDeser8 tag 1 0))
  | _ => none

end DiscreteLogServer

namespace DiscreteLogServer

/-! ## Round-trip correctness of the codec (C2, C7)

The composite `deserialize ∘ serialize` only ever reads list positions with
literal indices, so the proofs go through three characterization lemmas for
each serializer (length preservation, reads outside the written window,
reads inside it) plus one arithmetic fact: XOR-reassembling the 8 (resp. 4)
little-endian bytes of `v < 2^64` (resp. `2^32`) gives back `v`. -/

theorem getD_set_eq (l : List Nat) (i a : Nat) (h : i < l.length) :
    (l.set i a).getD i 0 = a := by
  simp [List.getD_eq_getElem?_getD, List.getElem?_set_self h]

theorem getD_set_ne (l : List Nat) (i j a : Nat) (h : i ≠ j) :
    (l.set i a).getD j 0 = l.getD j 0 := by
  simp [List.getD_eq_getElem?_getD, List.getElem?_set_ne h]

theorem getD_replicate (n j : Nat) : (List.replicate n (0 : Nat)).getD j 0 = 0 := by
  simp [List.getD_eq_getElem?_getD, List.getElem?_replicate]
  by_cases hj : j < n <;> simp [hj]

theorem frameSer8_length (t : List Nat) (idx v : Nat) :
    (frameSer8 t idx v).length = t.length := by
  unfold frameSer8
  rw [show List.range 8 = [0, 1, 2, 3, 4, 5, 6, 7] from rfl]
  simp only [List.foldl_cons, List.foldl_nil, List.length_set]

theorem frameSer8_getD_out (t : List Nat) (idx v j : Nat)
    (h : j < idx ∨ idx + 8 ≤ j) :
    (frameSer8 t idx v).getD j 0 = t.getD j 0 := by
  unfold frameSer8
  rw [show List.range 8 = [0, 1, 2, 3, 4, 5, 6, 7] from rfl]
  simp only [List.foldl_cons, List.foldl_nil]
  repeat rw [getD_set_ne _ _ _ _ (by omega)]

theorem frameSer8_getD_in (t : List Nat) (idx v j : Nat)
    (hlen : idx + 8 ≤ t.length) (h1 : idx ≤ j) (h2 : j < idx + 8) :
    (frameSer8 t idx v).getD j 0 =
      (t.getD j 0) ^^^ ((v >>> (8 * (j - idx))) &&& 255) := by
  unfold frameSer8
  rw [show List.range 8 = [0, 1, 2, 3, 4, 5, 6, 7] from rfl]
  simp only [List.foldl_cons, List.foldl_nil]
  rcases (by omega :
      j = 0 + idx ∨ j = 1 + idx ∨ j = 2 + idx ∨ j = 3 + idx ∨
      j = 4 + idx ∨ j = 5 + idx ∨ j = 6 + idx ∨ j = 7 + idx) with
    hj | hj | hj | hj | hj | hj | hj | hj <;>
  · subst hj
    repeat rw [getD_set_ne _ _ _ _ (by omega)]
    rw [getD_set_eq _ _ _ (by (repeat rw [List.length_set]); omega)]
    repeat rw [getD_set_ne _ _ _ _ (by omega)]
    norm_num

theorem respSer8_length (t : List Nat) (idx v : Nat) :
    (respSer8 t idx v).length = t.length := by
  unfold respSer8
  rw [show List.range 8 = [0, 1, 2, 3, 4, 5, 6, 7] from rfl]
  simp only [List.foldl_cons, List.foldl_nil, List.length_set]

theorem respSer8_getD_out (t : List Nat) (idx v j : Nat)
    (h : j < idx ∨ idx + 8 ≤ j) :
    (respSer8 t idx v).getD j 0 = t.getD j 0 := by
  unfold respSer8
  rw [show List.range 8 = [0, 1, 2, 3, 4, 5, 6, 7] from rfl]
  simp only [List.foldl_cons, List.foldl_nil]
  repeat rw [getD_set_ne _ _ _ _ (by omega)]

theorem respSer8_getD_in (t : List Nat) (idx v j : Nat)
    (hlen : idx + 8 ≤ t.length) (h1 : idx ≤ j) (h2 : j < idx + 8) :
    (respSer8 t idx v).getD j 0 =
      (t.getD j 0) ^^^ ((v >>> (8 * (j - idx))) &&& 255) := by
  unfold respSer8
  rw [show List.range 8 = [0, 1, 2, 3, 4, 5, 6, 7] from rfl]
  simp only [List.foldl_cons, List.foldl_nil]
  rcases (by omega :
      j = 0 + idx ∨ j = 1 + idx ∨ j = 2 + idx ∨ j = 3 + idx ∨
      j = 4 + idx ∨ j = 5 + idx ∨ j = 6 + idx ∨ j = 7 + idx) with
    hj | hj | hj | hj | hj | hj | hj | hj <;>
  · subst hj
    repeat rw [getD_set_ne _ _ _ _ (by omega)]
    rw [getD_set_eq _ _ _ (by (repeat rw [List.length_set]); omega)]
    repeat rw [getD_set_ne _ _ _ _ (by omega)]
    norm_num

theorem respSer4_length (t : List Nat) (idx v : Nat) :
    (respSer4 t idx v).length = t.length := by
  unfold respSer4
  rw [show List.range 4 = [0, 1, 2, 3] from rfl]
  simp only [List.foldl_cons, List.foldl_nil, List.length_set]

theorem respSer4_getD_out (t : List Nat) (idx v j : Nat)
    (h : j < idx ∨ idx + 4 ≤ j) :
    (respSer4 t idx v).getD j 0 = t.getD j 0 := by
  unfold respSer4
  rw [show List.range 4 = [0, 1, 2, 3] from rfl]
  simp only [List.foldl_cons, List.foldl_nil]
  repeat rw [getD_set_ne _ _ _ _ (by omega)]

theorem respSer4_getD_in (t : List Nat) (idx v j : Nat)
    (hlen : idx + 4 ≤ t.length) (h1 : idx ≤ j) (h2 : j < idx + 4) :
    (respSer4 t idx v).getD j 0 =
      (t.getD j 0) ^^^ ((v >>> (8 * (j - idx))) &&& 255) := by
  unfold respSer4
  rw [show List.range 4 = [0, 1, 2, 3] from rfl]
  simp only [List.foldl_cons, List.foldl_nil]
  rcases (by omega :
      j = 0 + idx ∨ j = 1 + idx ∨ j = 2 + idx ∨ j = 3 + idx) with
    hj | hj | hj | hj <;>
  · subst hj
    repeat rw [getD_set_ne _ _ _ _ (by omega)]
    rw [getD_set_eq _ _ _ (by (repeat rw [List.length_set]); omega)]
    repeat rw [getD_set_ne _ _ _ _ (by omega)]
    norm_num

theorem frameDeser8_expand (t : List Nat) (idx : Nat) :
    frameDeser8 t idx 0 =
      0 ^^^ (t.getD (0 + idx) 0 <<< (0 * 8)) ^^^ (t.getD (1 + idx) 0 <<< (1 * 8))
        ^^^ (t.getD (2 + idx) 0 <<< (2 * 8)) ^^^ (t.getD (3 + idx) 0 <<< (3 * 8))
        ^^^ (t.getD (4 + idx) 0 <<< (4 * 8)) ^^^ (t.getD (5 + idx) 0 <<< (5 * 8))
        ^^^ (t.getD (6 + idx) 0 <<< (6 * 8)) ^^^ (t.getD (7 + idx) 0 <<< (7 * 8)) := rfl

theorem respDeser8_expand (t : List Nat) (idx : Nat) :
    respDeser8 t idx 0 =
      0 ^^^ (t.getD (idx + 0) 0 <<< (0 * 8)) ^^^ (t.getD (idx + 1) 0 <<< (1 * 8))
        ^^^ (t.getD (idx + 2) 0 <<< (2 * 8)) ^^^ (t.getD (idx + 3) 0 <<< (3 * 8))
        ^^^ (t.getD (idx + 4) 0 <<< (4 * 8)) ^^^ (t.getD (idx + 5) 0 <<< (5 * 8))
        ^^^ (t.getD (idx + 6) 0 <<< (6 * 8)) ^^^ (t.getD (idx + 7) 0 <<< (7 * 8)) := rfl

theorem respDeser4_expand (t : List Nat) (idx : Nat) :
    respDeser4 t idx 0 =
      0 ^^^ (t.getD (0 + idx) 0 <<< (0 * 8)) ^^^ (t.getD (1 + idx) 0 <<< (1 * 8))
        ^^^ (t.getD (2 + idx) 0 <<< (2 * 8)) ^^^ (t.getD (3 + idx) 0 <<< (3 * 8)) := rfl

theorem xorChain64_eq (v : Nat) (hv : v < 2 ^ 64) :
    (v &&& 255) ^^^ ((v >>> 8 &&& 255) <<< 8) ^^^ ((v >>> 16 &&& 255) <<< 16)
      ^^^ ((v >>> 24 &&& 255) <<< 24) ^^^ ((v >>> 32 &&& 255) <<< 32)
      ^^^ ((v >>> 40 &&& 255) <<< 40) ^^^ ((v >>> 48 &&& 255) <<< 48)
      ^^^ ((v >>> 56 &&& 255) <<< 56) = v := by
  apply Nat.eq_of_testBit_eq
  intro i
  simp only [Nat.testBit_xor, Nat.testBit_shiftLeft, Nat.testBit_shiftRight,
    Nat.testBit_and]
  have h255 : ∀ j, 8 ≤ j → Nat.testBit 255 j = false := fun j hj =>
    Nat.testBit_lt_two_pow (lt_of_lt_of_le (by norm_num)
      (Nat.pow_le_pow_right (by norm_num) hj))
  have h255lt : ∀ j, j < 8 → Nat.testBit 255 j = true := by decide
  by_cases hi : i < 64
  · interval_cases i <;> simp [h255, h255lt]
  · have hvf : Nat.testBit v i = false :=
      Nat.testBit_lt_two_pow (lt_of_lt_of_le hv
        (Nat.pow_le_pow_right (by norm_num) (by omega)))
    rw [hvf, h255 i (by omega), h255 (i - 8) (by omega), h255 (i - 16) (by omega),
      h255 (i - 24) (by omega), h255 (i - 32) (by omega), h255 (i - 40) (by omega),
      h255 (i - 48) (by omega), h255 (i - 56) (by omega)]
    simp

theorem xorChain32_eq (v : Nat) (hv : v < 2 ^ 32) :
    (v &&& 255) ^^^ ((v >>> 8 &&& 255) <<< 8) ^^^ ((v >>> 16 &&& 255) <<< 16)
      ^^^ ((v >>> 24 &&& 255) <<< 24) = v := by
  apply Nat.eq_of_testBit_eq
  intro i
  simp only [Nat.testBit_xor, Nat.testBit_shiftLeft, Nat.testBit_shiftRight,
    Nat.testBit_and]
  have h255 : ∀ j, 8 ≤ j → Nat.testBit 255 j = false := fun j hj =>
    Nat.testBit_lt_two_pow (lt_of_lt_of_le (by norm_num)
      (Nat.pow_le_pow_right (by norm_num) hj))
  have h255lt : ∀ j, j < 8 → Nat.testBit 255 j = true := by decide
  by_cases hi : i < 32
  · interval_cases i <;> simp [h255, h255lt]
  · have hvf : Nat.testBit v i = false :=
      Nat.testBit_lt_two_pow (lt_of_lt_of_le hv
        (Nat.pow_le_pow_right (by norm_num) (by omega)))
    rw [hvf, h255 i (by omega), h255 (i - 8) (by omega), h255 (i - 16) (by omega),
      h255 (i - 24) (by omega)]
    simp

/-- **C2 (counterexample).**  Not every `Response` variant serializes: the
embedded-walk variant `Response::Log { pollards }` hits the
`panic!("`Response` variant cannot be serialized.")` arm, so
`deserialize(serialize(x)) = x` fails for it. -/
theorem c2_counterexample :
    Response.serialize (Response.log (PollardsLog.new 5011 2 2495)) = none := rfl

section RoundTripProofs

attribute [local irreducible] frameSer8 frameDeser8 respSer8 respDeser8
  respSer4 respDeser4

set_option maxHeartbeats 2000000 in
/-- **C2 (amended).**  Round trip of the codec: for every `Frame` variant,
`deserialize(serialize(x)) = x` and the request frame is exactly 25 bytes;
for every *wire* `Response` variant (all except the embedded-walk variants
`Log` and `RSA`, on which `serialize` panics), `deserialize(serialize(x)) = x`
and the response frame is exactly 57 bytes. -/
theorem c2_roundtrip_amended :
    (∀ f : Frame, Frame.wf f →
      Frame.deserialize (Frame.serialize f) = some f
        ∧ (Frame.serialize f).length = 25)
    ∧ (∀ r : Response, Response.wire r → Response.wf r →
      (Response.serialize r).bind Response.deserialize = some r
        ∧ (Response.serialize r).map List.length = some 57) := by
  constructor
  · intro f hwf
    cases f with
    | log g h p =>
      obtain ⟨hg, hh, hp⟩ := hwf
      constructor
      · simp only [Frame.serialize, Frame.deserialize]
        simp (disch := (try simp only [frameSer8_length, List.length_set,
            List.length_replicate]); omega) only
          [frameSer8_getD_out, frameSer8_getD_in, frameSer8_length, getD_set_ne,
           getD_set_eq, getD_replicate, List.length_set, List.length_replicate,
           frameDeser8_expand, Nat.reduceXor, Nat.reduceAdd, Nat.reduceMul,
           Nat.reduceSub, Nat.reduceEqDiff, Nat.zero_xor, Nat.xor_zero,
           Nat.shiftLeft_zero, Nat.shiftRight_zero, reduceIte]
        rw [xorChain64_eq g hg, xorChain64_eq h hh, xorChain64_eq p hp]
      · simp only [Frame.serialize, frameSer8_length, List.length_set,
          List.length_replicate]
    | rsa n e =>
      obtain ⟨hn, he⟩ := hwf
      constructor
      · simp only [Frame.serialize, Frame.deserialize]
        simp (disch := (try simp only [frameSer8_length, List.length_set,
            List.length_replicate]); omega) only
          [frameSer8_getD_out, frameSer8_getD_in, frameSer8_length, getD_set_ne,
           getD_set_eq, getD_replicate, List.length_set, List.length_replicate,
           frameDeser8_expand, Nat.reduceXor, Nat.reduceAdd, Nat.reduceMul,
           Nat.reduceSub, Nat.reduceEqDiff, Nat.zero_xor, Nat.xor_zero,
           Nat.shiftLeft_zero, Nat.shiftRight_zero, reduceIte]
        rw [xorChain64_eq n hn, xorChain64_eq e he]
      · simp only [Frame.serialize, frameSer8_length, List.length_set,
          List.length_replicate]
    | prime p =>
      constructor
      · simp only [Frame.serialize, Frame.deserialize]
        simp (disch := (try simp only [frameSer8_length, List.length_set,
            List.length_replicate]); omega) only
          [frameSer8_getD_out, frameSer8_getD_in, frameSer8_length, getD_set_ne,
           getD_set_eq, getD_replicate, List.length_set, List.length_replicate,
           frameDeser8_expand, Nat.reduceXor, Nat.reduceAdd, Nat.reduceMul,
           Nat.reduceSub, Nat.reduceEqDiff, Nat.zero_xor, Nat.xor_zero,
           Nat.shiftLeft_zero, Nat.shiftRight_zero, reduceIte]
        rw [xorChain64_eq p hwf]
      · simp only [Frame.serialize, frameSer8_length, List.length_set,
          List.length_replicate]
    | quit =>
      constructor
      · simp only [Frame.serialize, Frame.deserialize]
        simp (disch := (try simp only [List.length_set,
            List.length_replicate]); omega) only
          [getD_set_ne, getD_set_eq, getD_replicate, List.length_set,
           List.length_replicate, Nat.reduceXor, Nat.reduceEqDiff,
           Nat.zero_xor, reduceIte]
      · simp only [Frame.serialize, List.length_set, List.length_replicate]
  · intro r hwire hwf
    cases r with
    | log pollards => exact hwire.elim
    | rsa pollards => exact hwire.elim
    | connectionOk =>
      constructor
      · simp only [Response.serialize, Response.deserialize, Option.some_bind]
        simp (disch := (try simp only [List.length_set,
            List.length_replicate]); omega) only
          [getD_set_ne, getD_set_eq, getD_replicate, List.length_set,
           List.length_replicate, Nat.reduceXor, Nat.zero_xor]
      · simp only [Response.serialize, Option.map_some', List.length_set,
          List.length_replicate]
    | notPrime p =>
      constructor
      · simp only [Response.serialize, Response.deserialize, Option.some_bind]
        simp (disch := (try simp only [respSer8_length, List.length_set,
            List.length_replicate]); omega) only
          [respSer8_getD_out, respSer8_getD_in, respSer8_length, getD_set_ne,
           getD_set_eq, getD_replicate, List.length_set, List.length_replicate,
           respDeser8_expand, Nat.reduceXor, Nat.reduceAdd, Nat.reduceMul,
           Nat.reduceSub, Nat.reduceEqDiff, Nat.zero_xor, Nat.xor_zero,
           Nat.shiftLeft_zero, Nat.shiftRight_zero, reduceIte]
        rw [xorChain64_eq p hwf]
      · simp only [Response.serialize, Option.map_some', respSer8_length,
          List.length_set, List.length_replicate]
    | prime p prob =>
      obtain ⟨hp, hprob⟩ := hwf
      constructor
      · simp only [Response.serialize, Response.deserialize, Option.some_bind]
        simp (disch := (try simp only [respSer8_length, respSer4_length,
            List.length_set, List.length_replicate]); omega) only
          [respSer8_getD_out, respSer8_getD_in, respSer4_getD_out,
           respSer4_getD_in, respSer8_length, respSer4_length, getD_set_ne,
           getD_set_eq, getD_replicate, List.length_set, List.length_replicate,
           respDeser8_expand, respDeser4_expand, Nat.reduceXor, Nat.reduceAdd,
           Nat.reduceMul, Nat.reduceSub, Nat.reduceEqDiff, Nat.zero_xor,
           Nat.xor_zero, Nat.shiftLeft_zero, Nat.shiftRight_zero, reduceIte]
        rw [xorChain64_eq p hp, xorChain32_eq prob hprob]
      · simp only [Response.serialize, Option.map_some', respSer8_length,
          respSer4_length, List.length_set, List.length_replicate]
    | logItem it =>
      obtain ⟨i, xi, ai, bi, yi, gi, di⟩ := it
      obtain ⟨h1, h2, h3, h4, h5, h6, h7⟩ := hwf
      constructor
      · simp only [Response.serialize, Response.deserialize, Option.some_bind]
        simp (disch := (try simp only [respSer8_length, List.length_set,
            List.length_replicate]); omega) only
          [respSer8_getD_out, respSer8_getD_in, respSer8_length, getD_set_ne,
           getD_set_eq, getD_replicate, List.length_set, List.length_replicate,
           respDeser8_expand, Nat.reduceXor, Nat.reduceAdd, Nat.reduceMul,
           Nat.reduceSub, Nat.reduceEqDiff, Nat.zero_xor, Nat.xor_zero,
           Nat.shiftLeft_zero, Nat.shiftRight_zero, reduceIte]
        rw [xorChain64_eq i h1, xorChain64_eq xi h2, xorChain64_eq ai h3,
          xorChain64_eq bi h4, xorChain64_eq yi h5, xorChain64_eq gi h6,
          xorChain64_eq di h7]
      · simp only [Response.serialize, Option.map_some', respSer8_length,
          List.length_set, List.length_replicate]
    | successfulLog l g h p =>
      obtain ⟨h1, h2, h3, h4⟩ := hwf
      constructor
      · simp only [Response.serialize, Response.deserialize, Option.some_bind]
        simp (disch := (try simp only [respSer8_length, List.length_set,
            List.length_replicate]); omega) only
          [respSer8_getD_out, respSer8_getD_in, respSer8_length, getD_set_ne,
           getD_set_eq, getD_replicate, List.length_set, List.length_replicate,
           respDeser8_expand, Nat.reduceXor, Nat.reduceAdd, Nat.reduceMul,
           Nat.reduceSub, Nat.reduceEqDiff, Nat.zero_xor, Nat.xor_zero,
           Nat.shiftLeft_zero, Nat.shiftRight_zero, reduceIte]
        rw [xorChain64_eq l h1, xorChain64_eq g h2, xorChain64_eq h h3,
          xorChain64_eq p h4]
      · simp only [Response.serialize, Option.map_some', respSer8_length,
          List.length_set, List.length_replicate]
    | unsuccessfulLog g h p =>
      obtain ⟨h1, h2, h3⟩ := hwf
      constructor
      · simp only [Response.serialize, Response.deserialize, Option.some_bind]
        simp (disch := (try simp only [respSer8_length, List.length_set,
            List.length_replicate]); omega) only
          [respSer8_getD_out, respSer8_getD_in, respSer8_length, getD_set_ne,
           getD_set_eq, getD_replicate, List.length_set, List.length_replicate,
           respDeser8_expand, Nat.reduceXor, Nat.reduceAdd, Nat.reduceMul,
           Nat.reduceSub, Nat.reduceEqDiff, Nat.zero_xor, Nat.xor_zero,
           Nat.shiftLeft_zero, Nat.shiftRight_zero, reduceIte]
        rw [xorChain64_eq g h1, xorChain64_eq h h2, xorChain64_eq p h3]
      · simp only [Response.serialize, Option.map_some', respSer8_length,
          List.length_set, List.length_replicate]
    | rsaItem it =>
      obtain ⟨i, xi, yi, g, n⟩ := it
      obtain ⟨h1, h2, h3, h4, h5⟩ := hwf
      constructor
      · simp only [Response.serialize, Response.deserialize, Option.some_bind]
        simp (disch := (try simp only [respSer8_length, List.length_set,
            List.length_replicate]); omega) only
          [respSer8_getD_out, respSer8_getD_in, respSer8_length, getD_set_ne,
           getD_set_eq, getD_replicate, List.length_set, List.length_replicate,
           respDeser8_expand, Nat.reduceXor, Nat.reduceAdd, Nat.reduceMul,
           Nat.reduceSub, Nat.reduceEqDiff, Nat.zero_xor, Nat.xor_zero,
           Nat.shiftLeft_zero, Nat.shiftRight_zero, reduceIte]
        rw [xorChain64_eq i h1, xorChain64_eq xi h2, xorChain64_eq yi h3,
          xorChain64_eq g h4, xorChain64_eq n h5]
      · simp only [Response.serialize, Option.map_some', respSer8_length,
          List.length_set, List.length_replicate]
    | successfulRSA p q =>
      obtain ⟨h1, h2⟩ := hwf
      constructor
      · simp only [Response.serialize, Response.deserialize, Option.some_bind]
        simp (disch := (try simp only [respSer8_length, List.length_set,
            List.length_replicate]); omega) only
          [respSer8_getD_out, respSer8_getD_in, respSer8_length, getD_set_ne,
           getD_set_eq, getD_replicate, List.length_set, List.length_replicate,
           respDeser8_expand, Nat.reduceXor, Nat.reduceAdd, Nat.reduceMul,
           Nat.reduceSub, Nat.reduceEqDiff, Nat.zero_xor, Nat.xor_zero,
           Nat.shiftLeft_zero, Nat.shiftRight_zero, reduceIte]
        rw [xorChain64_eq p h1, xorChain64_eq q h2]
      · simp only [Response.serialize, Option.map_some', respSer8_length,
          List.length_set, List.length_replicate]
    | unsuccessfulRSA n =>
      constructor
      · simp only [Response.serialize, Response.deserialize, Option.some_bind]
        simp (disch := (try simp only [respSer8_length, List.length_set,
            List.length_replicate]); omega) only
          [respSer8_getD_out, respSer8_getD_in, respSer8_length, getD_set_ne,
           getD_set_eq, getD_replicate, List.length_set, List.length_replicate,
           respDeser8_expand, Nat.reduceXor, Nat.reduceAdd, Nat.reduceMul,
           Nat.reduceSub, Nat.reduceEqDiff, Nat.zero_xor, Nat.xor_zero,
           Nat.shiftLeft_zero, Nat.shiftRight_zero, reduceIte]
        rw [xorChain64_eq n hwf]
      · simp only [Response.serialize, Option.map_some', respSer8_length,
          List.length_set, List.length_replicate]

end RoundTripProofs

/-- Witness for the amended C2 on the repository's own test vectors
(`Frame::Log { g: 627, h: 390, p: 941 }` and
`Response::SuccessfulRSA { p: 3, q: 5 }`). -/
theorem c2_roundtrip_amended_witness :
    (Frame.wf (Frame.log 627 390 941)
      ∧ Frame.deserialize (Frame.serialize (Frame.log 627 390 941))
          = some (Frame.log 627 390 941)
      ∧ (Frame.serialize (Frame.log 627 390 941)).length = 25)
    ∧ (Response.wire (Response.successfulRSA 3 5)
      ∧ Response.wf (Response.successfulRSA 3 5)
      ∧ (Response.serialize (Response.successfulRSA 3 5)).bind Response.deserialize
          = some (Response.successfulRSA 3 5)
      ∧ (Response.serialize (Response.successfulRSA 3 5)).map List.length
          = some 57) :=
  ⟨⟨⟨by norm_num, by norm_num, by norm_num⟩,
    (c2_roundtrip_amended.1 (Frame.log 627 390 941)
      ⟨by norm_num, by norm_num, by norm_num⟩).1,
    (c2_roundtrip_amended.1 (Frame.log 627 390 941)
      ⟨by norm_num, by norm_num, by norm_num⟩).2⟩,
   ⟨trivial, ⟨by norm_num, by norm_num⟩,
    (c2_roundtrip_amended.2 (Response.successfulRSA 3 5) trivial
      ⟨by norm_num, by norm_num⟩).1,
    (c2_roundtrip_amended.2 (Response.successfulRSA 3 5) trivial
      ⟨by norm_num, by norm_num⟩).2⟩⟩

set_option maxHeartbeats 1000000 in
/-- **C7 (evaluation at the failing input).**  As declared in `src/lib.rs`,
`Response::SuccessfulLog` carries exactly the four fields `{log, g, h, p}`
and `Response::SuccessfulRSA` exactly `{p, q}`; their serializations hold
only those fields (there is no ratio anywhere in the 57-byte frame — bytes
33.. resp. 17.. are zero) and deserialization returns records with only
those fields.  This contradicts the spec and these variants' own
construction sites in `src/bin/server.rs` (lines 200 and 222), which pass
a fifth resp. third `ratio` field. -/
theorem c7_successful_variants_lack_ratio :
    Response.serialize (Response.successfulLog 11 2 63 71) =
      some [5, 11, 0, 0, 0, 0, 0, 0, 0, 2, 0, 0, 0, 0, 0, 0, 0, 63, 0, 0, 0, 0,
        0, 0, 0, 71, 0, 0, 0, 0, 0, 0, 0, 0, 0, 0, 0, 0, 0, 0, 0, 0, 0, 0, 0,
        0, 0, 0, 0, 0, 0, 0, 0, 0, 0, 0, 0]
    ∧ Response.deserialize [5, 11, 0, 0, 0, 0, 0, 0, 0, 2, 0, 0, 0, 0, 0, 0, 0,
        63, 0, 0, 0, 0, 0, 0, 0, 71, 0, 0, 0, 0, 0, 0, 0, 0, 0, 0, 0, 0, 0, 0,
        0, 0, 0, 0, 0, 0, 0, 0, 0, 0, 0, 0, 0, 0, 0, 0, 0]
        = some (Response.successfulLog 11 2 63 71)
    ∧ Response.serialize (Response.successfulRSA 3 5) =
      some [8, 3, 0, 0, 0, 0, 0, 0, 0, 5, 0, 0, 0, 0, 0, 0, 0, 0, 0, 0, 0, 0,
        0, 0, 0, 0, 0, 0, 0, 0, 0, 0, 0, 0, 0, 0, 0, 0, 0, 0, 0, 0, 0, 0, 0,
        0, 0, 0, 0, 0, 0, 0, 0, 0, 0, 0, 0]
    ∧ Response.deserialize [8, 3, 0, 0, 0, 0, 0, 0, 0, 5, 0, 0, 0, 0, 0, 0, 0,
        0, 0, 0, 0, 0, 0, 0, 0, 0, 0, 0, 0, 0, 0, 0, 0, 0, 0, 0, 0, 0, 0, 0,
        0, 0, 0, 0, 0, 0, 0, 0, 0, 0, 0, 0, 0, 0, 0, 0, 0]
        = some (Response.successfulRSA 3 5) := by
  refine ⟨by decide, by decide, by decide, by decide⟩

end DiscreteLogServer
